import Mathlib

/-!
Verification development for the libabx XML ↔ ABX (Android Binary XML) codec
(`src/abx.cc` of the android-xml-converter repository).

Byte strings (`std::string`, `std::vector<uint8_t>`, and the character output
stream) are modelled uniformly as `List Nat`, each element an octet < 256.
Machine integers are modelled as `Nat`/`Int` with explicit reductions modulo
`2 ^ 32` / `2 ^ 64` where the C++ code relies on fixed-width behaviour.
Fallible operations return `Except`.  Errors are identified by the site of the
`throw std::runtime_error(...)` in the source; the constructor names follow the
specification's error taxonomy (§7 of the spec).
-/

namespace Abx

/-- A byte string: the model of `std::string` / `std::vector<uint8_t>`. -/
abbrev Str := List Nat

/-- Error discriminants, one per distinct `throw` site of the modelled code.
`eof` stands for a failed read on an exhausted stream (`UnexpectedEof`). -/
inductive Err where
  | eof
  | badMagic
  | badInternIndex
  | unknownAttributeType
  | stringTooLong
  | poolOverflow
  | tagMismatch
  | unbalancedEnd
  deriving DecidableEq

deriving instance DecidableEq for Except

/-! ## Base64 utilities (`base64_encode` / `base64_decode`, abx.cc lines 18-57) -/

/-- The base64 alphabet `"ABC…Z abc…z 0…9 + /"` as byte values; `b64Char i` is
`base64_chars[i]` of the source. -/
def b64Char (i : Nat) : Nat :=
  if i < 26 then 65 + i              -- 'A'..'Z'
  else if i < 52 then 97 + (i - 26)  -- 'a'..'z'
  else if i < 62 then 48 + (i - 52)  -- '0'..'9'
  else if i = 62 then 43             -- '+'
  else 47                            -- '/'

/-- Position of byte `c` in the base64 alphabet (`chars.find(c)` of the
source); `none` models `std::string::npos`. -/
def b64Pos (c : Nat) : Option Nat :=
  if 65 ≤ c ∧ c ≤ 90 then some (c - 65)        -- 'A'..'Z' ↦ 0..25
  else if 97 ≤ c ∧ c ≤ 122 then some (c - 65 - 6)  -- 'a'..'z' ↦ 26..51
  else if 48 ≤ c ∧ c ≤ 57 then some (c - 48 + 52)  -- '0'..'9' ↦ 52..61
  else if c = 43 then some 62                   -- '+'
  else if c = 47 then some 63                   -- '/'
  else none

/-- `base64_encode`: the loop body for one 3-byte group.  `triple` is the
`uint32_t` accumulator `(data[i] << 16) | (data[i+1] << 8) | data[i+2]` with
absent bytes contributing 0; the four output characters are
`base64_chars[(triple >> k) & 0x3F]` for `k = 18, 12, 6, 0`, the last two
replaced by `'='` (61) when fewer than 2 resp. 3 input bytes remain. -/
def base64Encode : Str → Str
  | [] => []
  | [a] =>
      let triple := a * 2 ^ 16
      [b64Char (triple / 2 ^ 18 % 64), b64Char (triple / 2 ^ 12 % 64), 61, 61]
  | [a, b] =>
      let triple := a * 2 ^ 16 + b * 2 ^ 8
      [b64Char (triple / 2 ^ 18 % 64), b64Char (triple / 2 ^ 12 % 64),
       b64Char (triple / 2 ^ 6 % 64), 61]
  | a :: b :: c :: rest =>
      let triple := a * 2 ^ 16 + b * 2 ^ 8 + c
      b64Char (triple / 2 ^ 18 % 64) :: b64Char (triple / 2 ^ 12 % 64) ::
      b64Char (triple / 2 ^ 6 % 64) :: b64Char (triple % 64) :: base64Encode rest

/-- `base64_decode`'s character loop.  State: `val` is the `uint32_t` bit
accumulator (kept modulo `2 ^ 32`), `valb` the signed bit counter starting at
`-8`.  A `'='` (61) breaks the loop; bytes outside the alphabet are skipped;
each alphabet character shifts 6 bits in, and whenever `valb ≥ 0` the byte
`(val >> valb) & 0xFF` is emitted. -/
def base64DecodeLoop : Str → Nat → Int → Str
  | [], _, _ => []
  | c :: cs, val, valb =>
      if c = 61 then []
      else
        match b64Pos c with
        | none => base64DecodeLoop cs val valb
        | some pos =>
            let val' := (val * 64 + pos) % 2 ^ 32
            let valb' := valb + 6
            if 0 ≤ valb' then
              val' / 2 ^ valb'.toNat % 256 :: base64DecodeLoop cs val' (valb' - 8)
            else
              base64DecodeLoop cs val' valb'

/-- `base64_decode` (abx.cc line 37). -/
def base64Decode (s : Str) : Str := base64DecodeLoop s 0 (-8)

end Abx

namespace Abx

/-! ### Round trip of the base64 pair (claim C10) -/

theorem b64Pos_b64Char_of_lt : ∀ j, j < 64 → b64Pos (b64Char j) = some j := by decide

theorem b64Char_lt_ne : ∀ j, j < 64 → ¬ b64Char j = 61 := by decide

theorem b64Pos_b64Char_mod (j : Nat) : b64Pos (b64Char (j % 64)) = some (j % 64) :=
  b64Pos_b64Char_of_lt _ (Nat.mod_lt _ (by norm_num))

theorem b64Char_mod_ne (j : Nat) : ¬ b64Char (j % 64) = 61 :=
  b64Char_lt_ne _ (Nat.mod_lt _ (by norm_num))

/-- One 6-bit shift of the decoder accumulator: `val = (val << 6) + pos` on a
`uint32_t`. -/
def b64Next (val j : Nat) : Nat := (val * 64 + j) % 2 ^ 32

/-- Decoding one full 4-character block emits the three original bytes and
returns the loop to bit-counter `-8`. -/
theorem base64DecodeLoop_block (a b c : Nat) (ha : a < 256) (hb : b < 256)
    (hc : c < 256) (rest : Str) (val : Nat) :
    base64DecodeLoop
      (b64Char ((a * 2 ^ 16 + b * 2 ^ 8 + c) / 2 ^ 18 % 64) ::
       b64Char ((a * 2 ^ 16 + b * 2 ^ 8 + c) / 2 ^ 12 % 64) ::
       b64Char ((a * 2 ^ 16 + b * 2 ^ 8 + c) / 2 ^ 6 % 64) ::
       b64Char ((a * 2 ^ 16 + b * 2 ^ 8 + c) % 64) :: rest) val (-8)
      = a :: b :: c :: base64DecodeLoop rest
          (b64Next (b64Next (b64Next (b64Next val ((a * 2 ^ 16 + b * 2 ^ 8 + c) / 2 ^ 18 % 64))
            ((a * 2 ^ 16 + b * 2 ^ 8 + c) / 2 ^ 12 % 64))
            ((a * 2 ^ 16 + b * 2 ^ 8 + c) / 2 ^ 6 % 64))
            ((a * 2 ^ 16 + b * 2 ^ 8 + c) % 64)) (-8) := by
  simp only [base64DecodeLoop, b64Pos_b64Char_mod, b64Char_mod_ne, if_false,
    ite_false, reduceIte, b64Next]
  norm_num
  simp only [show (4 : Int).toNat = 4 from rfl, show (2 : Int).toNat = 2 from rfl,
    show (0 : Int).toNat = 0 from rfl]
  norm_num
  refine ⟨?_, ?_, ?_⟩ <;> omega

theorem base64DecodeLoop_eq (bs : Str) (h : ∀ x ∈ bs, x < 256) :
    ∀ val, base64DecodeLoop (base64Encode bs) val (-8) = bs := by
  induction bs using base64Encode.induct with
  | case1 => intro val; simp [base64Encode, base64DecodeLoop]
  | case2 a =>
      intro val
      have ha : a < 256 := h a (by simp)
      simp only [base64Encode]
      simp only [base64DecodeLoop, b64Pos_b64Char_mod, b64Char_mod_ne, if_false,
        ite_false, reduceIte]
      norm_num
      simp only [show (4 : Int).toNat = 4 from rfl, show (2 : Int).toNat = 2 from rfl,
        show (0 : Int).toNat = 0 from rfl]
      norm_num
      omega
  | case3 a b =>
      intro val
      have ha : a < 256 := h a (by simp)
      have hb : b < 256 := h b (by simp)
      simp only [base64Encode]
      simp only [base64DecodeLoop, b64Pos_b64Char_mod, b64Char_mod_ne, if_false,
        ite_false, reduceIte]
      norm_num
      simp only [show (4 : Int).toNat = 4 from rfl, show (2 : Int).toNat = 2 from rfl,
        show (0 : Int).toNat = 0 from rfl]
      norm_num
      constructor <;> omega
  | case4 a b c rest ih =>
      intro val
      have ha : a < 256 := h a (by simp)
      have hb : b < 256 := h b (by simp)
      have hc : c < 256 := h c (by simp)
      have hrest : ∀ x ∈ rest, x < 256 := fun x hx => h x (by simp [hx])
      simp only [base64Encode]
      rw [base64DecodeLoop_block a b c ha hb hc (base64Encode rest) val, ih hrest]

/-- Claim C10: for every byte vector `b`, `base64_decode (base64_encode b)`
returns exactly `b` — the exposed base64 utility pair is a left-inverse round
trip, the decoder consuming the `'='` padding the encoder produces. -/
theorem c10_base64_round_trip (bs : Str) (h : ∀ x ∈ bs, x < 256) :
    base64Decode (base64Encode bs) = bs :=
  base64DecodeLoop_eq bs h 0

/-- Witness for C10 at the spec's own example bytes `DE AD BE EF`. -/
theorem c10_base64_round_trip_witness :
    (∀ x ∈ [222, 173, 190, 239], x < 256) ∧
      base64Decode (base64Encode [222, 173, 190, 239]) = [222, 173, 190, 239] :=
  ⟨by decide, c10_base64_round_trip [222, 173, 190, 239] (by decide)⟩

end Abx

namespace Abx

/-! ## `FastDataOutput` primitives (abx.cc lines 204-268) -/

/-- `FastDataOutput::MAX_UNSIGNED_SHORT` (abx.hpp line 62). -/
def maxUnsignedShort : Nat := 65535

/-- `FastDataOutput::writeShort`: the two big-endian bytes of a `uint16_t`
(the byte-swap of the source emits the high byte first). -/
def writeShortW (v : Nat) : Str := [v / 256 % 256, v % 256]

/-- `FastDataOutput::writeUTF` (abx.cc line 241): reject strings longer than
`MAX_UNSIGNED_SHORT` bytes (`StringTooLong`) before anything is written,
otherwise emit the 2-byte big-endian length followed by the raw bytes. -/
def writeUTFW (s : Str) : Except Err Str :=
  if s.length > maxUnsignedShort then .error .stringTooLong
  else .ok (writeShortW s.length ++ s)

/-- Position of a string in the interning pool: the model of the
`string_pool` map, which always sends a pooled string to its index in
`interned_strings`. -/
def poolIdx (pool : List Str) (s : Str) : Option Nat :=
  match pool with
  | [] => none
  | t :: rest => if t = s then some 0 else (poolIdx rest s).map (· + 1)

/-- `FastDataOutput::writeInternedUTF` (abx.cc line 249).  The pool is the
`interned_strings` list; the `string_pool` map is modelled by positional
lookup, which agrees with it because entries are only ever appended when
absent.  A known string writes its index; a new string requires pool room
(`PoolOverflow` otherwise), writes the sentinel `0xFFFF` plus the raw string,
and is appended at index `interned_strings.size()`. -/
def writeInternedUTFW (pool : List Str) (s : Str) : Except Err (Str × List Str) :=
  match poolIdx pool s with
  | some i => .ok (writeShortW i, pool)
  | none =>
      if pool.length ≥ maxUnsignedShort then .error .poolOverflow
      else
        match writeUTFW s with
        | .error e => .error e
        | .ok bs => .ok (writeShortW 65535 ++ bs, pool ++ [s])

/-- A sequence of `writeInternedUTF` calls, tracking the evolving pool. -/
def internCalls : List Str → List Str → Except Err (List Str)
  | [], pool => .ok pool
  | s :: t, pool =>
      match writeInternedUTFW pool s with
      | .ok r => internCalls t r.2
      | .error e => .error e

/-! ### Claim C9: `write_utf` boundary behaviour -/

/-- Claim C9: `write_utf` succeeds for every string of at most 65 535 bytes,
writing the 2-byte big-endian length followed by the bytes, and fails with
`StringTooLong` for every string of 65 536 bytes or more (the `Except` error
carries no written bytes: the length check precedes all writes). -/
theorem c9_write_utf :
    (∀ s : Str, s.length ≤ 65535 →
        ∃ hi lo, hi < 256 ∧ lo < 256 ∧ hi * 256 + lo = s.length ∧
          writeUTFW s = .ok (hi :: lo :: s)) ∧
    (∀ s : Str, 65536 ≤ s.length → writeUTFW s = .error .stringTooLong) := by
  constructor
  · intro s hs
    refine ⟨s.length / 256 % 256, s.length % 256, by omega, by omega, by omega, ?_⟩
    simp only [writeUTFW, maxUnsignedShort, writeShortW]
    rw [if_neg (by omega)]
    simp
  · intro s hs
    simp only [writeUTFW, maxUnsignedShort]
    rw [if_pos (by omega)]

set_option maxRecDepth 100000 in
/-- Witness for C9: a 1-byte string succeeds with the expected bytes; a
65 536-byte string fails with `StringTooLong`. -/
theorem c9_write_utf_witness :
    (([97] : Str).length ≤ 65535 ∧ ∃ hi lo, hi < 256 ∧ lo < 256 ∧
        hi * 256 + lo = ([97] : Str).length ∧ writeUTFW [97] = .ok (hi :: lo :: [97])) ∧
    ((65536 ≤ (List.replicate 65536 0 : Str).length) ∧
        writeUTFW (List.replicate 65536 0) = .error .stringTooLong) := by
  refine ⟨⟨by decide, c9_write_utf.1 [97] (by decide)⟩, ?_, ?_⟩
  · rw [List.length_replicate]
  · exact c9_write_utf.2 _ (by rw [List.length_replicate])

end Abx

namespace Abx

/-! ### Claim C8: interning pool capacity -/

theorem poolIdx_eq_none {pool : List Str} {s : Str}
    (h : s ∉ pool) : poolIdx pool s = none := by
  induction pool with
  | nil => rfl
  | cons t rest ih =>
      have ht : t ≠ s := fun hEq => h (hEq ▸ List.mem_cons_self t rest)
      simp only [poolIdx, ht, if_false, ite_false,
        ih (fun hm => h (List.mem_cons_of_mem t hm))]
      rfl

theorem poolIdx_mem {pool : List Str} {s : Str}
    (h : s ∈ pool) : ∃ i, poolIdx pool s = some i := by
  induction pool with
  | nil => cases h
  | cons t rest ih =>
      by_cases ht : t = s
      · exact ⟨0, by simp [poolIdx, ht]⟩
      · obtain ⟨i, hi⟩ := ih (by
          rcases List.mem_cons.mp h with h1 | h2
          · exact absurd h1.symm ht
          · exact h2)
        exact ⟨i + 1, by simp [poolIdx, ht, hi]⟩

/-- A hit in the pool is a valid index resolving to the string. -/
theorem poolIdx_some : ∀ {pool : List Str} {s : Str} {i : Nat},
    poolIdx pool s = some i → i < pool.length ∧ pool.getD i [] = s := by
  intro pool
  induction pool with
  | nil => intro s i h; cases h
  | cons t rest ih =>
      intro s i h
      rw [show poolIdx (t :: rest) s
          = if t = s then some 0 else (poolIdx rest s).map (· + 1) from rfl] at h
      by_cases ht : t = s
      · rw [if_pos ht] at h
        cases h
        exact ⟨by simp, ht⟩
      · rw [if_neg ht] at h
        cases hr : poolIdx rest s with
        | none => rw [hr] at h; cases h
        | some j =>
            rw [hr] at h
            cases h
            obtain ⟨h1, h2⟩ := ih hr
            refine ⟨by simp; omega, h2⟩

/-- Interning a string already in the pool always succeeds and leaves the pool
unchanged. -/
theorem writeInternedUTFW_mem {pool : List Str} {s : Str} (h : s ∈ pool) :
    ∃ bs, writeInternedUTFW pool s = .ok (bs, pool) := by
  obtain ⟨i, hi⟩ := poolIdx_mem h
  exact ⟨writeShortW i, by simp [writeInternedUTFW, hi]⟩

/-- Interning a new string into a full pool (65 535 entries) fails with
`PoolOverflow`. -/
theorem writeInternedUTFW_full {pool : List Str} {s : Str}
    (hlen : 65535 ≤ pool.length) (h : s ∉ pool) :
    writeInternedUTFW pool s = .error .poolOverflow := by
  simp only [writeInternedUTFW, poolIdx_eq_none h, maxUnsignedShort]
  rw [if_pos hlen]

/-- A run of `writeInternedUTF` calls succeeds as long as the pool keeps room
for the distinct strings not interned yet and every string is writable. -/
theorem internCalls_ok (calls : List Str) :
    ∀ pool : List Str, (∀ s ∈ calls, s.length ≤ 65535) →
      pool.length + ((calls.toFinset).filter (fun s => s ∉ pool)).card ≤ 65535 →
      ∃ p, internCalls calls pool = .ok p := by
  induction calls with
  | nil => intro pool _ _; exact ⟨pool, rfl⟩
  | cons s t ih =>
      intro pool hlens hroom
      have hslen : s.length ≤ 65535 := hlens s (List.mem_cons_self s t)
      by_cases hs : s ∈ pool
      · obtain ⟨bs, hbs⟩ := writeInternedUTFW_mem hs
        have hmono : ((t.toFinset).filter (fun x => x ∉ pool)).card ≤
            (((s :: t).toFinset).filter (fun x => x ∉ pool)).card := by
          apply Finset.card_le_card
          apply Finset.filter_subset_filter
          intro x hx
          simp only [List.toFinset_cons, Finset.mem_insert]
          exact Or.inr hx
        obtain ⟨p, hp⟩ := ih pool (fun x hx => hlens x (List.mem_cons_of_mem s hx))
          (by omega)
        exact ⟨p, by simp only [internCalls, hbs]; exact hp⟩
      · have hsmem : s ∈ ((s :: t).toFinset).filter (fun x => x ∉ pool) := by
          simp [hs]
        have hpos : 1 ≤ (((s :: t).toFinset).filter (fun x => x ∉ pool)).card :=
          Finset.card_pos.mpr ⟨s, hsmem⟩
        have hplen : pool.length < 65535 := by omega
        have hstep : writeInternedUTFW pool s =
            .ok (writeShortW 65535 ++ writeShortW s.length ++ s, pool ++ [s]) := by
          simp only [writeInternedUTFW, poolIdx_eq_none hs, maxUnsignedShort]
          rw [if_neg (by omega)]
          simp only [writeUTFW, maxUnsignedShort]
          rw [if_neg (by omega)]
          simp [List.append_assoc]
        have hsub : (t.toFinset).filter (fun x => x ∉ pool ++ [s]) ⊆
            ((((s :: t).toFinset).filter (fun x => x ∉ pool)).erase s) := by
          intro x hx
          simp only [Finset.mem_filter, List.mem_toFinset, List.mem_append,
            List.mem_singleton, not_or] at hx
          obtain ⟨hxt, hxp, hxs⟩ := hx
          refine Finset.mem_erase.mpr ⟨hxs, ?_⟩
          simp only [Finset.mem_filter, List.toFinset_cons, Finset.mem_insert,
            List.mem_toFinset]
          exact ⟨Or.inr hxt, hxp⟩
        have hcard : ((t.toFinset).filter (fun x => x ∉ pool ++ [s])).card + 1 ≤
            (((s :: t).toFinset).filter (fun x => x ∉ pool)).card := by
          have h1 := Finset.card_le_card hsub
          rw [Finset.card_erase_of_mem hsmem] at h1
          omega
        obtain ⟨p, hp⟩ := ih (pool ++ [s])
          (fun x hx => hlens x (List.mem_cons_of_mem s hx))
          (by simp only [List.length_append, List.length_singleton]; omega)
        exact ⟨p, by simp only [internCalls, hstep]; exact hp⟩

/-- Claim C8: the writer-side interning pool accepts exactly 65 535 distinct
strings.  (1) Any sequence of `write_interned_utf` calls over at most 65 535
distinct writable strings succeeds from a fresh pool; (2) once the pool holds
65 535 entries, interning a new distinct string fails with `PoolOverflow`;
(3) re-interning an already-pooled string never fails and leaves the pool
unchanged. -/
theorem c8_intern_pool :
    (∀ calls : List Str, (∀ s ∈ calls, s.length ≤ 65535) →
        calls.toFinset.card ≤ 65535 → ∃ p, internCalls calls [] = .ok p) ∧
    (∀ (pool : List Str) (s : Str), pool.length = 65535 → s ∉ pool →
        writeInternedUTFW pool s = .error .poolOverflow) ∧
    (∀ (pool : List Str) (s : Str), s ∈ pool →
        ∃ bs, writeInternedUTFW pool s = .ok (bs, pool)) := by
  refine ⟨?_, ?_, ?_⟩
  · intro calls hlens hcard
    apply internCalls_ok calls [] hlens
    have : ((calls.toFinset).filter (fun s => s ∉ ([] : List Str))).card ≤
        calls.toFinset.card := Finset.card_le_card (Finset.filter_subset _ _)
    simpa using by omega
  · intro pool s hlen hmem
    exact writeInternedUTFW_full (by omega) hmem
  · intro pool s h
    exact writeInternedUTFW_mem h

/-- A pool with 65 535 distinct 2-byte entries, used by the C8 witness. -/
def fullPool : List Str := (List.range 65535).map (fun k => [k % 256, k / 256])

theorem fullPool_length : fullPool.length = 65535 := by
  simp [fullPool]

theorem fullPool_not_mem : ([7, 7, 7] : Str) ∉ fullPool := by
  intro h
  simp only [fullPool, List.mem_map] at h
  obtain ⟨k, _, hk⟩ := h
  exact absurd hk (by simp)

/-- Witness for C8: a 3-call sequence with 2 distinct strings succeeds; a full
65 535-entry pool rejects a fresh string with `PoolOverflow`; a repeat of a
pooled string succeeds. -/
theorem c8_intern_pool_witness :
    (∃ p, internCalls [[97], [98], [97]] [] = .ok p) ∧
    writeInternedUTFW fullPool [7, 7, 7] = .error .poolOverflow ∧
    (∃ bs, writeInternedUTFW [[97]] [97] = .ok (bs, [[97]])) := by
  refine ⟨?_, ?_, ?_⟩
  · exact c8_intern_pool.1 [[97], [98], [97]] (by decide) (by decide)
  · exact c8_intern_pool.2.1 fullPool [7, 7, 7] fullPool_length fullPool_not_mem
  · exact c8_intern_pool.2.2 [[97]] [97] (by decide)

end Abx

namespace Abx

/-! ## `BinaryXmlSerializer` (abx.cc lines 486-664)

Token bytes are `command | type` with the command in the low nibble and the
type in the high nibble (abx.hpp): START_DOCUMENT=0, END_DOCUMENT=1,
START_TAG=2, END_TAG=3, TEXT=4, CDSECT=5, ENTITY_REF=6,
IGNORABLE_WHITESPACE=7, PROCESSING_INSTRUCTION=8, COMMENT=9, DOCDECL=10,
ATTRIBUTE=15; TYPE_NULL=16, TYPE_STRING=32, TYPE_STRING_INTERNED=48,
TYPE_BYTES_HEX=64, TYPE_BYTES_BASE64=80, TYPE_INT=96, TYPE_INT_HEX=112,
TYPE_LONG=128, TYPE_LONG_HEX=144, TYPE_FLOAT=160, TYPE_DOUBLE=176,
TYPE_BOOLEAN_TRUE=192, TYPE_BOOLEAN_FALSE=208. -/

/-- `PROTOCOL_MAGIC_VERSION_0`: bytes 41 42 58 00, written once by the
serializer constructor before any token. -/
def protocolMagic : Str := [65, 66, 88, 0]

/-- Serializer state: the writer interning pool (`FastDataOutput`) and the
open-tag stack (`mTagNames`/`mTagCount`, head = innermost open tag). -/
structure SOut where
  pool : List Str
  stack : List Str
  deriving DecidableEq

/-- Big-endian bytes of a `uint32_t` (`FastDataOutput::writeInt`). -/
def beBytes4 (n : Nat) : Str :=
  [n / 2 ^ 24 % 256, n / 2 ^ 16 % 256, n / 2 ^ 8 % 256, n % 256]

/-- Big-endian bytes of a `uint64_t` (`FastDataOutput::writeLong`). -/
def beBytes8 (n : Nat) : Str :=
  [n / 2 ^ 56 % 256, n / 2 ^ 48 % 256, n / 2 ^ 40 % 256, n / 2 ^ 32 % 256,
   n / 2 ^ 24 % 256, n / 2 ^ 16 % 256, n / 2 ^ 8 % 256, n % 256]

/-- `startDocument`: `START_DOCUMENT | TYPE_NULL` = 0x10. -/
def startDocumentS (st : SOut) : Str × SOut := ([16], st)

/-- `endDocument` (abx.cc line 513): writes `END_DOCUMENT | TYPE_NULL` = 0x11
and flushes.  The source performs no tag-stack check here. -/
def endDocumentS (st : SOut) : Str × SOut := ([17], st)

/-- `startTag` (abx.cc line 518): push the name, write
`START_TAG | TYPE_STRING_INTERNED` = 0x32 and the interned name. -/
def startTagS (name : Str) (st : SOut) : Except Err (Str × SOut) :=
  match writeInternedUTFW st.pool name with
  | .error e => .error e
  | .ok (bs, pool) => .ok (50 :: bs, { pool := pool, stack := name :: st.stack })

/-- `endTag` (abx.cc line 528): empty stack fails (`UnbalancedEnd`), a
mismatched top fails (`TagMismatch`); otherwise pop and write
`END_TAG | TYPE_STRING_INTERNED` = 0x33 plus the interned name. -/
def endTagS (name : Str) (st : SOut) : Except Err (Str × SOut) :=
  match st.stack with
  | [] => .error .unbalancedEnd
  | top :: rest =>
      if top ≠ name then .error .tagMismatch
      else
        match writeInternedUTFW st.pool name with
        | .error e => .error e
        | .ok (bs, pool) => .ok (51 :: bs, { pool := pool, stack := rest })

/-- `attribute` (abx.cc line 544): `ATTRIBUTE | TYPE_STRING` = 0x2F, interned
name, raw UTF payload. -/
def attributeS (name value : Str) (st : SOut) : Except Err (Str × SOut) :=
  match writeInternedUTFW st.pool name with
  | .error e => .error e
  | .ok (nb, pool1) =>
      match writeUTFW value with
      | .error e => .error e
      | .ok vb => .ok (47 :: (nb ++ vb), { st with pool := pool1 })

/-- `attributeInterned` (abx.cc line 551): `ATTRIBUTE | TYPE_STRING_INTERNED`
= 0x3F, interned name, interned value. -/
def attributeInternedS (name value : Str) (st : SOut) : Except Err (Str × SOut) :=
  match writeInternedUTFW st.pool name with
  | .error e => .error e
  | .ok (nb, pool1) =>
      match writeInternedUTFW pool1 value with
      | .error e => .error e
      | .ok (vb, pool2) => .ok (63 :: (nb ++ vb), { st with pool := pool2 })

/-- `attributeInt`: `ATTRIBUTE | TYPE_INT` = 0x6F plus big-endian `i32`. -/
def attributeIntS (name : Str) (v : Int) (st : SOut) : Except Err (Str × SOut) :=
  match writeInternedUTFW st.pool name with
  | .error e => .error e
  | .ok (nb, pool1) =>
      .ok (111 :: (nb ++ beBytes4 ((v % 2 ^ 32).toNat)), { st with pool := pool1 })

/-- `attributeIntHex`: `ATTRIBUTE | TYPE_INT_HEX` = 0x7F plus big-endian `i32`. -/
def attributeIntHexS (name : Str) (v : Int) (st : SOut) : Except Err (Str × SOut) :=
  match writeInternedUTFW st.pool name with
  | .error e => .error e
  | .ok (nb, pool1) =>
      .ok (127 :: (nb ++ beBytes4 ((v % 2 ^ 32).toNat)), { st with pool := pool1 })

/-- `attributeLong`: `ATTRIBUTE | TYPE_LONG` = 0x8F plus big-endian `i64`. -/
def attributeLongS (name : Str) (v : Int) (st : SOut) : Except Err (Str × SOut) :=
  match writeInternedUTFW st.pool name with
  | .error e => .error e
  | .ok (nb, pool1) =>
      .ok (143 :: (nb ++ beBytes8 ((v % 2 ^ 64).toNat)), { st with pool := pool1 })

/-- `attributeLongHex`: `ATTRIBUTE | TYPE_LONG_HEX` = 0x9F plus big-endian `i64`. -/
def attributeLongHexS (name : Str) (v : Int) (st : SOut) : Except Err (Str × SOut) :=
  match writeInternedUTFW st.pool name with
  | .error e => .error e
  | .ok (nb, pool1) =>
      .ok (159 :: (nb ++ beBytes8 ((v % 2 ^ 64).toNat)), { st with pool := pool1 })

/-- `attributeFloat`: `ATTRIBUTE | TYPE_FLOAT` = 0xAF plus the raw 4 bit-bytes. -/
def attributeFloatS (name : Str) (bits : Nat) (st : SOut) : Except Err (Str × SOut) :=
  match writeInternedUTFW st.pool name with
  | .error e => .error e
  | .ok (nb, pool1) =>
      .ok (175 :: (nb ++ beBytes4 (bits % 2 ^ 32)), { st with pool := pool1 })

/-- `attributeBoolean`: `ATTRIBUTE | TYPE_BOOLEAN_TRUE` = 0xCF or
`ATTRIBUTE | TYPE_BOOLEAN_FALSE` = 0xDF; the interned name follows the token,
there is no payload. -/
def attributeBooleanS (name : Str) (b : Bool) (st : SOut) : Except Err (Str × SOut) :=
  match writeInternedUTFW st.pool name with
  | .error e => .error e
  | .ok (nb, pool1) =>
      .ok ((if b then 207 else 223) :: nb, { st with pool := pool1 })

/-- `writeToken(token, &text)` (abx.cc line 493): `token | TYPE_STRING` then
the UTF payload; used by text, cdsect, comment, PI, docdecl, whitespace and
entity-ref events. -/
def writeTokenS (command : Nat) (text : Str) (st : SOut) : Except Err (Str × SOut) :=
  match writeUTFW text with
  | .error e => .error e
  | .ok bs => .ok ((command + 32) :: bs, st)

end Abx

namespace Abx

/-! ### Claim C6: serializer balance errors -/

/-- Amended claim C6: `end_tag` on an empty stack fails with `UnbalancedEnd`
and on a non-empty stack whose top differs from the name fails with
`TagMismatch`; but `end_document` performs no balance check at all — it
writes `END_DOCUMENT | TYPE_NULL` and succeeds for every state, including one
with open tags. -/
theorem c6_end_tag_errors :
    (∀ (st : SOut) (name : Str), st.stack = [] →
        endTagS name st = .error .unbalancedEnd) ∧
    (∀ (st : SOut) (name top : Str) (rest : List Str),
        st.stack = top :: rest → top ≠ name →
        endTagS name st = .error .tagMismatch) ∧
    (∀ st : SOut, endDocumentS st = ([17], st)) := by
  refine ⟨?_, ?_, fun _ => rfl⟩
  · intro st name h
    simp only [endTagS, h]
  · intro st name top rest h hne
    simp only [endTagS, h]
    rw [if_pos hne]

/-- Witness for C6 at concrete states: an empty stack, then a stack whose top
`"b"` differs from the requested `"a"`. -/
theorem c6_end_tag_errors_witness :
    ((SOut.mk [] []).stack = [] ∧ endTagS [97] ⟨[], []⟩ = .error .unbalancedEnd) ∧
    ((SOut.mk [] [[98]]).stack = [98] :: [] ∧ ([98] : Str) ≠ [97] ∧
        endTagS [97] ⟨[], [[98]]⟩ = .error .tagMismatch) ∧
    endDocumentS ⟨[], [[98]]⟩ = ([17], ⟨[], [[98]]⟩) :=
  ⟨⟨rfl, c6_end_tag_errors.1 ⟨[], []⟩ [97] rfl⟩,
   ⟨rfl, by decide, c6_end_tag_errors.2.1 ⟨[], [[98]]⟩ [97] [98] [] rfl (by decide)⟩,
   c6_end_tag_errors.2.2 ⟨[], [[98]]⟩⟩

/-- Counterexample to C6 as stated: a document with an open tag.  `startTag`
pushes `"a"`, after which the stack is non-empty, yet `endDocument` succeeds
(returning the END_DOCUMENT byte) instead of failing with `UnbalancedEnd`:
`endDocument` never inspects the stack. -/
theorem c6_counterexample :
    startTagS [97] ⟨[], []⟩ = .ok ([50, 255, 255, 0, 1, 97], ⟨[[97]], [[97]]⟩) ∧
    (SOut.mk [[97]] [[97]]).stack ≠ [] ∧
    endDocumentS ⟨[[97]], [[97]]⟩ = ([17], ⟨[[97]], [[97]]⟩) := by
  refine ⟨by decide, by decide, rfl⟩

end Abx

namespace Abx

/-! ## Type inference (abx.cc lines 670-747 and 777-833)

Character classes follow the C locale: `isdigit` = `'0'..'9'`, `isspace` =
space, tab, LF, VT, FF, CR; `tolower` only affects `'A'..'Z'`. -/

/-- `::isdigit`. -/
def isDigitB (c : Nat) : Bool := decide (48 ≤ c ∧ c ≤ 57)

/-- `std::isspace` on an unsigned char: 0x20 or 0x09-0x0D. -/
def isSpaceB (c : Nat) : Bool := decide (c = 32 ∨ (9 ≤ c ∧ c ≤ 13))

/-- The hex-digit test `isdigit(c) || (tolower(c) >= 'a' && tolower(c) <= 'f')`
used by `is_hex_number` and `is_hex_string`. -/
def isHexDigitB (c : Nat) : Bool :=
  isDigitB c || decide (97 ≤ c ∧ c ≤ 102) || decide (65 ≤ c ∧ c ≤ 70)

/-- `is_numeric` (abx.cc line 672): non-empty, an optional leading `'-'`,
and every remaining character a digit.  (Note the faithful quirk: the single
string `"-"` passes, because the scan after the sign is vacuous.) -/
def isNumeric (s : Str) : Bool :=
  match s with
  | [] => false
  | c :: rest => (if c = 45 then rest else s).all isDigitB

/-- `is_hex_number` (abx.cc line 679): length ≥ 3, literal prefix `"0x"` or
`"0X"` (no sign allowed), all remaining characters hex digits. -/
def isHexNumber (s : Str) : Bool :=
  match s with
  | c0 :: c1 :: rest =>
      decide (rest ≠ []) && decide (c0 = 48) && (decide (c1 = 120) || decide (c1 = 88)) &&
        rest.all isHexDigitB
  | _ => false

/-- The character scan of `is_float`: tracks whether a dot was seen; a second
dot or a non-digit fails; the result is whether a dot occurred. -/
def floatScan : Str → Bool → Bool
  | [], hasDot => hasDot
  | c :: rest, hasDot =>
      if c = 46 then (if hasDot then false else floatScan rest true)
      else if isDigitB c then floatScan rest hasDot
      else false

/-- `is_float` (abx.cc line 690): non-empty, optional leading `'-'`, then
digits with exactly one `'.'`. -/
def isFloatB (s : Str) : Bool :=
  match s with
  | [] => false
  | c :: rest => floatScan (if c = 45 then rest else s) false

/-- `is_boolean` (abx.cc line 718): exactly `"true"` or `"false"`. -/
def isBoolean (s : Str) : Bool :=
  decide (s = [116, 114, 117, 101]) || decide (s = [102, 97, 108, 115, 101])

/-- `is_hex_string` (abx.cc line 734): even length, all hex digits (the empty
string passes). -/
def isHexString (s : Str) : Bool :=
  decide (s.length % 2 = 0) && s.all isHexDigitB

/-- `is_whitespace_only` (abx.cc line 743). -/
def isWsOnly (s : Str) : Bool := s.all isSpaceB

/-- Numeric value of a hex-digit character (defined on characters accepted by
`isHexDigitB`). -/
def hexDigitVal (c : Nat) : Nat :=
  if c ≤ 57 then c - 48 else if c ≤ 70 then c - 55 else c - 87

/-- Value of a big-endian string of hex digits. -/
def hexValNat (ds : Str) : Nat := ds.foldl (fun a c => 16 * a + hexDigitVal c) 0

/-- Value of a big-endian string of decimal digits. -/
def decValNat (ds : Str) : Nat := ds.foldl (fun a c => 10 * a + (c - 48)) 0

/-- `std::stoi(s, nullptr, 16)` on strings accepted by `is_hex_number`
(prefix `0x`/`0X`, then hex digits): the digit value if it fits an `int`
(≤ `INT_MAX`), otherwise `none` (`std::out_of_range`). -/
def stoiHex (s : Str) : Option Int :=
  match s with
  | _ :: _ :: ds => if hexValNat ds ≤ 2147483647 then some (hexValNat ds) else none
  | _ => none

/-- `std::stoll(s, nullptr, 16)` on strings accepted by `is_hex_number`: the
digit value if it fits a `long long` (≤ `LLONG_MAX`), else `none`. -/
def stollHex (s : Str) : Option Int :=
  match s with
  | _ :: _ :: ds =>
      if hexValNat ds ≤ 9223372036854775807 then some (hexValNat ds) else none
  | _ => none

/-- `std::stoi` (base 10) on strings accepted by `is_numeric`: optional sign,
then digits; no digits (`"-"`) is `std::invalid_argument`, a value outside
`[INT_MIN, INT_MAX]` is `std::out_of_range`; both give `none`. -/
def stoiDec (s : Str) : Option Int :=
  match s with
  | [] => none
  | c :: rest =>
      let body := if c = 45 then rest else s
      if body = [] then none
      else
        let sv : Int := if c = 45 then -(decValNat body : Int) else (decValNat body : Int)
        if -2147483648 ≤ sv ∧ sv ≤ 2147483647 then some sv else none

/-- `std::stoll` (base 10) on strings accepted by `is_numeric`. -/
def stollDec (s : Str) : Option Int :=
  match s with
  | [] => none
  | c :: rest =>
      let body := if c = 45 then rest else s
      if body = [] then none
      else
        let sv : Int := if c = 45 then -(decValNat body : Int) else (decValNat body : Int)
        if -9223372036854775808 ≤ sv ∧ sv ≤ 9223372036854775807 then some sv else none

/-- Placeholder for the bits of `std::stof`: IEEE-754 parsing is outside the
embedding.  No claim depends on the FLOAT arm; only the record layout (a
4-byte payload) matters, and every theorem below with attributes constrains
them away from this arm. -/
def stofBits (_ : Str) : Option Nat := some 0

/-- Which serializer call the attribute type-inference ladder of
`process_xml_node_internal` (abx.cc lines 777-833) selects for a value. -/
inductive AttrEnc where
  | abool (b : Bool)
  | aintHex (v : Int)
  | alongHex (v : Int)
  | aint (v : Int)
  | along (v : Int)
  | afloat (bits : Nat)
  | astrI
  | astr
  deriving DecidableEq

/-- The attribute type-inference ladder, arm by arm in source order:
boolean; `0x` hex (length ≤ 10 → `stoi`/INT_HEX, longer → `stoll`/LONG_HEX,
parse failure → plain string); decimal shorter than 15 (`stoi`, then `stoll`,
then plain string); float-looking, not a hex string, shorter than 20 (`stof`
or plain string); short simple strings interned; everything else plain. -/
def inferAttr (v : Str) : AttrEnc :=
  if isBoolean v then .abool (v = [116, 114, 117, 101])
  else if isHexNumber v then
    (if v.length ≤ 10 then
      match stoiHex v with
      | some n => .aintHex n
      | none => .astr
    else
      match stollHex v with
      | some n => .alongHex n
      | none => .astr)
  else if isNumeric v && decide (v.length < 15) then
    (match stoiDec v with
     | some n => .aint n
     | none =>
        match stollDec v with
        | some n => .along n
        | none => .astr)
  else if isFloatB v && !isHexString v && decide (v.length < 20) then
    (match stofBits v with
     | some bits => .afloat bits
     | none => .astr)
  else if decide (v.length < 50) && !v.contains 32 && !v.contains 45 then .astrI
  else .astr

end Abx

namespace Abx

/-! ### Claim C5: hex attribute inference -/

/-- The claim's regex `^-?0[xX][0-9a-fA-F]+$` written out from the spec's
words (optional sign, `0x`/`0X` prefix, at least one hex digit). -/
def specHexSigned (s : Str) : Bool :=
  match s with
  | 45 :: rest => specHexSigned.body rest
  | _ => specHexSigned.body s
where
  /-- Helper matching `0[xX][0-9a-fA-F]+`. -/
  body : Str → Bool
  | 48 :: x :: ds =>
      (decide (x = 120) || decide (x = 88)) && decide (ds ≠ []) && ds.all isHexDigitB
  | _ => false

/-- The amended regex `^0[xX][0-9a-fA-F]+$` (no sign). -/
def specHexUnsigned (s : Str) : Bool :=
  match s with
  | 48 :: x :: ds =>
      (decide (x = 120) || decide (x = 88)) && decide (ds ≠ []) && ds.all isHexDigitB
  | _ => false

/-- Counterexample to C5 as stated: the value `"-0x1f"` matches the claim's
regex `^-?0[xX][0-9a-fA-F]+$`, has 2 ≤ 8 hex digits, and `std::stoi` base 16
would parse it (value −31, in range), yet the inference ladder encodes it as a
plain string attribute: `is_hex_number` rejects any leading sign, so the hex
arm is never entered, and the `'-'` also blocks interning. -/
theorem c5_counterexample :
    specHexSigned [45, 48, 120, 49, 102] = true ∧
    ([45, 48, 120, 49, 102] : Str).length ≤ 10 ∧
    hexValNat [49, 102] = 31 ∧
    isHexNumber [45, 48, 120, 49, 102] = false ∧
    inferAttr [45, 48, 120, 49, 102] = .astr := by
  refine ⟨by decide, by decide, by decide, by decide, by decide⟩

/-- Amended claim C5: an attribute value matching `^0[xX][0-9a-fA-F]+$` (no
leading sign — `is_hex_number` rejects one) is encoded INT_HEX when the total
length is ≤ 10 (that is, at most 8 hex digits) and its value fits `INT_MAX`,
LONG_HEX when it is longer and its value fits `LLONG_MAX`, and falls through
to a plain string attribute exactly when the numeric parse fails (value out of
range). -/
theorem c5_hex_inference (v : Str) (h : isHexNumber v = true) :
    specHexUnsigned v = true ∧
    (v.length ≤ 10 ↔ (v.drop 2).length ≤ 8) ∧
    (v.length ≤ 10 →
      (hexValNat (v.drop 2) ≤ 2147483647 →
          inferAttr v = .aintHex (hexValNat (v.drop 2))) ∧
      (2147483647 < hexValNat (v.drop 2) → inferAttr v = .astr)) ∧
    (10 < v.length →
      (hexValNat (v.drop 2) ≤ 9223372036854775807 →
          inferAttr v = .alongHex (hexValNat (v.drop 2))) ∧
      (9223372036854775807 < hexValNat (v.drop 2) → inferAttr v = .astr)) := by
  rcases v with _ | ⟨c0, _ | ⟨c1, ds⟩⟩
  · simp [isHexNumber] at h
  · simp [isHexNumber] at h
  · simp only [isHexNumber, Bool.and_eq_true, Bool.or_eq_true, decide_eq_true_eq] at h
    obtain ⟨⟨⟨hne, hc0⟩, hc1⟩, hall⟩ := h
    subst hc0
    have hbool : isBoolean (48 :: c1 :: ds) = false := by simp [isBoolean]
    have hhex : isHexNumber (48 :: c1 :: ds) = true := by
      simp only [isHexNumber, Bool.and_eq_true, Bool.or_eq_true, decide_eq_true_eq]
      exact ⟨⟨⟨hne, trivial⟩, hc1⟩, hall⟩
    have hdrop : (48 :: c1 :: ds).drop 2 = ds := rfl
    rw [hdrop]
    refine ⟨?_, ?_, ?_, ?_⟩
    · rcases hc1 with h1 | h1 <;> subst h1 <;> simp [specHexUnsigned, hne, hall]
    · simp only [List.length_cons]; omega
    · intro hlen
      constructor
      · intro hsmall
        simp only [inferAttr, hbool, Bool.false_eq_true, if_false, hhex, if_true,
          if_pos hlen, stoiHex]
        rw [if_pos hsmall]
      · intro hbig
        simp only [inferAttr, hbool, Bool.false_eq_true, if_false, hhex, if_true,
          if_pos hlen, stoiHex]
        rw [if_neg (by omega)]
    · intro hlen
      constructor
      · intro hsmall
        simp only [inferAttr, hbool, Bool.false_eq_true, if_false, hhex, if_true,
          if_neg (by omega : ¬ (48 :: c1 :: ds).length ≤ 10), stollHex]
        rw [if_pos hsmall]
      · intro hbig
        simp only [inferAttr, hbool, Bool.false_eq_true, if_false, hhex, if_true,
          if_neg (by omega : ¬ (48 :: c1 :: ds).length ≤ 10), stollHex]
        rw [if_neg (by omega)]

/-- Witness for C5 at `"0xff"`: 2 hex digits, value 255, encoded INT_HEX. -/
theorem c5_hex_inference_witness :
    isHexNumber [48, 120, 102, 102] = true ∧
    specHexUnsigned [48, 120, 102, 102] = true ∧
    inferAttr [48, 120, 102, 102] = .aintHex 255 := by
  refine ⟨by decide, ?_, ?_⟩
  · exact (c5_hex_inference [48, 120, 102, 102] (by decide)).1
  · have h := ((c5_hex_inference [48, 120, 102, 102] (by decide)).2.2.1 (by decide)).1
      (by decide)
    simpa using h

end Abx

namespace Abx

/-! ## `FastDataInput` and `BinaryXmlDeserializer` (abx.cc lines 106-484)

Reader state: the read-side interning pool (`interned_strings` of
`FastDataInput`) plus the remaining input bytes.  A failed primitive read
models `istream::read` on a short stream: it consumes everything available,
so the error state always carries an empty input (the stream is at EOF with
the fail bit set).  Errors thrown without a stream failure
(`BadInternIndex`, `UnknownAttributeType`) carry the position after the
bytes read so far. -/

structure DIn where
  pool : List Str
  input : List Nat
  deriving DecidableEq

/-- `FastDataInput::readByte`. -/
def readByteD (st : DIn) : Except (Err × DIn) (Nat × DIn) :=
  match st.input with
  | [] => .error (.eof, st)
  | b :: rest => .ok (b, { st with input := rest })

/-- `istream::read(buf, len)`: take `len` bytes or fail consuming everything. -/
def takeBytesD (len : Nat) (st : DIn) : Except (Err × DIn) (Str × DIn) :=
  if len ≤ st.input.length then
    .ok (st.input.take len, { st with input := st.input.drop len })
  else .error (.eof, { st with input := [] })

/-- `FastDataInput::readShort`: two bytes, big-endian. -/
def readShortD (st : DIn) : Except (Err × DIn) (Nat × DIn) :=
  match readByteD st with
  | .error e => .error e
  | .ok (b1, st1) =>
      match readByteD st1 with
      | .error e => .error e
      | .ok (b2, st2) => .ok (b1 * 256 + b2, st2)

/-- Reinterpret a 32-bit pattern as a two's-complement `int32_t`. -/
def toSigned32 (n : Nat) : Int := if n < 2 ^ 31 then (n : Int) else (n : Int) - 2 ^ 32

/-- Reinterpret a 64-bit pattern as a two's-complement `int64_t`. -/
def toSigned64 (n : Nat) : Int := if n < 2 ^ 63 then (n : Int) else (n : Int) - 2 ^ 64

/-- Big-endian value of a byte string. -/
def beVal (bs : Str) : Nat := bs.foldl (fun a b => a * 256 + b) 0

/-- `FastDataInput::readInt`: four bytes, big-endian, signed. -/
def readIntD (st : DIn) : Except (Err × DIn) (Int × DIn) :=
  match takeBytesD 4 st with
  | .error e => .error e
  | .ok (bs, st1) => .ok (toSigned32 (beVal bs), st1)

/-- `FastDataInput::readLong`: eight bytes, big-endian, signed. -/
def readLongD (st : DIn) : Except (Err × DIn) (Int × DIn) :=
  match takeBytesD 8 st with
  | .error e => .error e
  | .ok (bs, st1) => .ok (toSigned64 (beVal bs), st1)

/-- `FastDataInput::readUTF`: 2-byte length then that many raw bytes. -/
def readUTFD (st : DIn) : Except (Err × DIn) (Str × DIn) :=
  match readShortD st with
  | .error e => .error e
  | .ok (len, st1) => takeBytesD len st1

/-- `FastDataInput::readInternedUTF` (abx.cc line 173): `0xFFFF` introduces a
new string (read it, append to the pool); any other index must be within the
pool (`BadInternIndex` otherwise). -/
def readInternedUTFD (st : DIn) : Except (Err × DIn) (Str × DIn) :=
  match readShortD st with
  | .error e => .error e
  | .ok (idx, st1) =>
      if idx = 65535 then
        match readUTFD st1 with
        | .error e => .error e
        | .ok (s, st2) => .ok (s, { st2 with pool := st2.pool ++ [s] })
      else
        if idx < st1.pool.length then .ok (st1.pool.getD idx [], st1)
        else .error (.badInternIndex, st1)

/-! ### Text renderers of the deserializer -/

/-- Lowercase hex digit character of a value < 16. -/
def hexDigitCh (d : Nat) : Nat := if d < 10 then 48 + d else 87 + d

/-- Fuelled digit emitter behind `natHex`. -/
def natHexAux : Nat → Nat → List Nat → List Nat
  | 0, _, acc => acc
  | fuel + 1, n, acc =>
      if n < 16 then hexDigitCh n :: acc
      else natHexAux fuel (n / 16) (hexDigitCh (n % 16) :: acc)

/-- Lowercase hexadecimal rendering of a `Nat` with no leading zeros, as
`operator<<(std::hex | std::nouppercase)` prints an unsigned integer. -/
def natHex (n : Nat) : Str := natHexAux (n + 1) n []

/-- Fuelled digit emitter behind `natDec`. -/
def natDecAux : Nat → Nat → List Nat → List Nat
  | 0, _, acc => acc
  | fuel + 1, n, acc =>
      if n < 10 then (48 + n) :: acc
      else natDecAux fuel (n / 10) ((48 + n % 10) :: acc)

/-- Decimal rendering of a `Nat`. -/
def natDec (n : Nat) : Str := natDecAux (n + 1) n []

/-- Decimal rendering of a signed integer (`operator<<` on `int32_t` or
`int64_t`). -/
def intDec (v : Int) : Str := if v < 0 then 45 :: natDec (-v).toNat else natDec v.toNat

/-- The INT_HEX arm of `processAttribute` (abx.cc lines 305-314): the decimal
string `"-1"` when the value is −1, otherwise the lowercase hex of the value
cast to `uint32_t`. -/
def renderIntHex (v : Int) : Str :=
  if v = -1 then intDec v else natHex ((v % 2 ^ 32).toNat)

/-- The LONG_HEX arm of `processAttribute` (abx.cc lines 318-327), over
`uint64_t`. -/
def renderLongHex (v : Int) : Str :=
  if v = -1 then intDec v else natHex ((v % 2 ^ 64).toNat)

/-- The FLOAT arm's text: IEEE-754 decimal rendering is outside the
embedding and no claim depends on it; only the arm's 4-byte payload size is
faithful.  (Same for `renderDoubleBits` and the 8-byte DOUBLE arm.) -/
def renderFloatBits (_ : Nat) : Str := []

/-- See `renderFloatBits`. -/
def renderDoubleBits (_ : Nat) : Str := []

/-- `encode_xml_entities` on one byte. -/
def escByte (c : Nat) : Str :=
  if c = 38 then [38, 97, 109, 112, 59]             -- &amp;
  else if c = 60 then [38, 108, 116, 59]            -- &lt;
  else if c = 62 then [38, 103, 116, 59]            -- &gt;
  else if c = 34 then [38, 113, 117, 111, 116, 59]  -- &quot;
  else if c = 39 then [38, 97, 112, 111, 115, 59]   -- &apos;
  else [c]

/-- `encode_xml_entities` (abx.cc line 76). -/
def encodeXmlEntities (s : Str) : Str := s.foldr (fun c acc => escByte c ++ acc) []

/-- `BinaryXmlDeserializer::bytesToHex`: two lowercase hex digits per byte,
zero-padded. -/
def bytesToHexR (bs : Str) : Str :=
  bs.foldr (fun b acc => hexDigitCh (b / 16 % 16) :: hexDigitCh (b % 16) :: acc) []

/-- The high nibble `token & 0xF0` of a token byte (< 256). -/
def highType (token : Nat) : Nat := token - token % 16

/-- `BinaryXmlDeserializer::processAttribute` (abx.cc line 289): read the
interned name, emit `" name=\x22"`, dispatch on the type nibble for the value
text, close the quote.  The `" name=\x22"` prefix is streamed to the output
BEFORE the type switch (abx.cc line 293), so an error thrown inside the
switch — an unrecognized type nibble (`UnknownAttributeType`, after the name
has been read and possibly interned) or a failed payload read — leaves that
prefix already emitted; the error therefore carries the output produced so
far (empty when the name read itself fails, since nothing is streamed before
it). -/
def processAttribute (token : Nat) (st : DIn) : Except (Err × Str × DIn) (Str × DIn) :=
  match readInternedUTFD st with
  | .error (e, s) => .error (e, [], s)
  | .ok (name, st1) =>
      let pre := 32 :: (name ++ [61, 34])
      let ty := highType token
      if ty = 32 then        -- TYPE_STRING
        match readUTFD st1 with
        | .error (e, s) => .error (e, pre, s)
        | .ok (s, st2) => .ok (pre ++ encodeXmlEntities s ++ [34], st2)
      else if ty = 48 then   -- TYPE_STRING_INTERNED
        match readInternedUTFD st1 with
        | .error (e, s) => .error (e, pre, s)
        | .ok (s, st2) => .ok (pre ++ encodeXmlEntities s ++ [34], st2)
      else if ty = 96 then   -- TYPE_INT
        match readIntD st1 with
        | .error (e, s) => .error (e, pre, s)
        | .ok (v, st2) => .ok (pre ++ intDec v ++ [34], st2)
      else if ty = 112 then  -- TYPE_INT_HEX
        match readIntD st1 with
        | .error (e, s) => .error (e, pre, s)
        | .ok (v, st2) => .ok (pre ++ renderIntHex v ++ [34], st2)
      else if ty = 128 then  -- TYPE_LONG
        match readLongD st1 with
        | .error (e, s) => .error (e, pre, s)
        | .ok (v, st2) => .ok (pre ++ intDec v ++ [34], st2)
      else if ty = 144 then  -- TYPE_LONG_HEX
        match readLongD st1 with
        | .error (e, s) => .error (e, pre, s)
        | .ok (v, st2) => .ok (pre ++ renderLongHex v ++ [34], st2)
      else if ty = 160 then  -- TYPE_FLOAT
        match takeBytesD 4 st1 with
        | .error (e, s) => .error (e, pre, s)
        | .ok (bs, st2) => .ok (pre ++ renderFloatBits (beVal bs) ++ [34], st2)
      else if ty = 176 then  -- TYPE_DOUBLE
        match takeBytesD 8 st1 with
        | .error (e, s) => .error (e, pre, s)
        | .ok (bs, st2) => .ok (pre ++ renderDoubleBits (beVal bs) ++ [34], st2)
      else if ty = 192 then  -- TYPE_BOOLEAN_TRUE
        .ok (pre ++ [116, 114, 117, 101] ++ [34], st1)
      else if ty = 208 then  -- TYPE_BOOLEAN_FALSE
        .ok (pre ++ [102, 97, 108, 115, 101] ++ [34], st1)
      else if ty = 64 then   -- TYPE_BYTES_HEX
        match readShortD st1 with
        | .error (e, s) => .error (e, pre, s)
        | .ok (len, st2) =>
            match takeBytesD len st2 with
            | .error (e, s) => .error (e, pre, s)
            | .ok (bs, st3) => .ok (pre ++ bytesToHexR bs ++ [34], st3)
      else if ty = 80 then   -- TYPE_BYTES_BASE64
        match readShortD st1 with
        | .error (e, s) => .error (e, pre, s)
        | .ok (len, st2) =>
            match takeBytesD len st2 with
            | .error (e, s) => .error (e, pre, s)
            | .ok (bs, st3) => .ok (pre ++ base64Encode bs ++ [34], st3)
      else .error (.unknownAttributeType, pre, st1)

/-- The attribute sub-loop after START_TAG (abx.cc lines 403-417) followed by
the `">"` emission.  Each round remembers `pos = tellg()`, reads a byte, and:
a non-ATTRIBUTE low nibble seeks back and breaks; a failed read or a failed
`processAttribute` is caught, seeks back and breaks.  Output streamed by
`processAttribute` before its throw stays in the output (the sink received
it already).  `seekg` silently does nothing when the stream failed (fail bit
after a short read — the `.eof` error), so in that case the position stays
at the end; pool mutations made before a throw persist in every case.  Fuel
only bounds the recursion; one call per round with `input.length + 1` rounds
available never runs out, since every continuing round consumes at least the
token byte. -/
def attrLoop : Nat → DIn → Str → Str × DIn
  | 0, st, acc => (acc ++ [62], st)
  | fuel + 1, st, acc =>
      let pos := st.input
      match readByteD st with
      | .error e => (acc ++ [62], e.2)
      | .ok (tok, st1) =>
          if tok % 16 = 15 then
            match processAttribute tok st1 with
            | .ok (out, st2) => attrLoop fuel st2 (acc ++ out)
            | .error (.eof, out, st2) => (acc ++ out ++ [62], st2)
            | .error (_, out, st2) => (acc ++ out ++ [62], { st2 with input := pos })
          else (acc ++ [62], { st1 with input := pos })

/-- Result of one round of the deserializer token loop. -/
inductive StepRes where
  | cont : DIn → Str → StepRes
  | done : Str → StepRes
  | err : Err → DIn → Str → StepRes

/-- One round of `BinaryXmlDeserializer::deserialize` (abx.cc lines 385-476):
read a token, split `command = token & 0x0F`, dispatch.  Output written
before a throw is kept (the stream sink received it already). -/
def decodeStep (st : DIn) (acc : Str) : StepRes :=
  match readByteD st with
  | .error (e1, s1) => .err e1 s1 acc
  | .ok (token, st1) =>
      match token % 16 with
      | 0 => .cont st1 acc                             -- START_DOCUMENT
      | 1 => .done acc                                 -- END_DOCUMENT
      | 2 =>                                           -- START_TAG
        (match readInternedUTFD st1 with
        | .error (e1, s1) => .err e1 s1 acc
        | .ok (name, st2) =>
            let r := attrLoop (st2.input.length + 1) st2 []
            .cont r.2 (acc ++ 60 :: (name ++ r.1)))
      | 3 =>                                           -- END_TAG
        (match readInternedUTFD st1 with
        | .error (e1, s1) => .err e1 s1 acc
        | .ok (name, st2) => .cont st2 (acc ++ [60, 47] ++ name ++ [62]))
      | 4 =>                                           -- TEXT
        if highType token = 32 then
          match readUTFD st1 with
          | .error (e1, s1) => .err e1 s1 acc
          | .ok (s, st2) =>
              .cont st2 (acc ++ (if s = [] then [] else encodeXmlEntities s))
        else .cont st1 acc
      | 5 =>                                           -- CDSECT
        if highType token = 32 then
          match readUTFD st1 with
          | .error (e1, s1) => .err e1 s1 acc
          | .ok (s, st2) =>
              .cont st2 (acc ++ [60, 33, 91, 67, 68, 65, 84, 65, 91] ++ s ++ [93, 93, 62])
        else .cont st1 acc
      | 9 =>                                           -- COMMENT
        if highType token = 32 then
          match readUTFD st1 with
          | .error (e1, s1) => .err e1 s1 acc
          | .ok (s, st2) => .cont st2 (acc ++ [60, 33, 45, 45] ++ s ++ [45, 45, 62])
        else .cont st1 acc
      | 8 =>                                           -- PROCESSING_INSTRUCTION
        if highType token = 32 then
          match readUTFD st1 with
          | .error (e1, s1) => .err e1 s1 acc
          | .ok (s, st2) => .cont st2 (acc ++ [60, 63] ++ s ++ [63, 62])
        else .cont st1 acc
      | 10 =>                                          -- DOCDECL
        if highType token = 32 then
          match readUTFD st1 with
          | .error (e1, s1) => .err e1 s1 acc
          | .ok (s, st2) =>
              .cont st2 (acc ++ [60, 33, 68, 79, 67, 84, 89, 80, 69, 32] ++ s ++ [62])
        else .cont st1 acc
      | 6 =>                                           -- ENTITY_REF
        if highType token = 32 then
          match readUTFD st1 with
          | .error (e1, s1) => .err e1 s1 acc
          | .ok (s, st2) => .cont st2 (acc ++ 38 :: (s ++ [59]))
        else .cont st1 acc
      | 7 =>                                           -- IGNORABLE_WHITESPACE
        if highType token = 32 then
          match readUTFD st1 with
          | .error (e1, s1) => .err e1 s1 acc
          | .ok (s, st2) => .cont st2 (acc ++ s)
        else .cont st1 acc
      | _ => .cont st1 acc                             -- unknown command: skipped

/-- The deserializer token loop `while (!mIn->eof()) { try … }`: END_DOCUMENT
returns, an error thrown with the stream exhausted breaks (returning the
output so far), any other error propagates.  Fuel bounds the rounds; every
continuing round consumes at least one byte, so `input.length + 1` suffices
for any input. -/
def decodeLoop : Nat → DIn → Str → Except Err Str
  | 0, _, acc => .ok acc
  | fuel + 1, st, acc =>
      if st.input = [] then .ok acc
      else
        match decodeStep st acc with
        | .done acc1 => .ok acc1
        | .cont st1 acc1 => decodeLoop fuel st1 acc1
        | .err e st1 acc1 => if st1.input = [] then .ok acc1 else .error e

/-- `BinaryXmlDeserializer`: the constructor reads and checks the four magic
bytes (`BadMagic` on mismatch, a short-read failure if the input has fewer
than four bytes, before emitting anything), then `deserialize()` runs the
token loop with a fresh interning pool. -/
def deserialize (bs : List Nat) : Except Err Str :=
  match bs with
  | b0 :: b1 :: b2 :: b3 :: rest =>
      if b0 = 65 ∧ b1 = 66 ∧ b2 = 88 ∧ b3 = 0 then
        decodeLoop (rest.length + 1) ⟨[], rest⟩ []
      else .error .badMagic
  | _ => .error .eof

end Abx

namespace Abx

/-! ### Claim C3: INT_HEX / LONG_HEX rendering laws -/

theorem natHex_small {n : Nat} (h : n < 16) : natHex n = [hexDigitCh n] := by
  simp [natHex, natHexAux, h]

theorem natHexAux_eq : ∀ n f acc, n < f → natHexAux f n acc = natHex n ++ acc := by
  intro n
  induction n using Nat.strong_induction_on with
  | _ n ih =>
    intro f acc hf
    obtain ⟨g, rfl⟩ : ∃ g, f = g + 1 := ⟨f - 1, by omega⟩
    by_cases h16 : n < 16
    · simp [natHexAux, h16, natHex_small h16]
    · have hdiv : n / 16 < n := Nat.div_lt_self (by omega) (by omega)
      have hrhs : natHex n = natHex (n / 16) ++ [hexDigitCh (n % 16)] := by
        show natHexAux (n + 1) n [] = _
        simp only [natHexAux, h16, if_false, ite_false]
        exact ih (n / 16) hdiv n _ (by omega)
      simp only [natHexAux, h16, if_false, ite_false]
      rw [ih (n / 16) hdiv g _ (by omega), hrhs, List.append_assoc]
      rfl

theorem natHex_cons {n : Nat} (h : 16 ≤ n) :
    natHex n = natHex (n / 16) ++ [hexDigitCh (n % 16)] := by
  show natHexAux (n + 1) n [] = _
  simp only [natHexAux, show ¬ n < 16 by omega, if_false, ite_false]
  exact natHexAux_eq (n / 16) n _ (by omega)

theorem hexDigitVal_hexDigitCh : ∀ d, d < 16 → hexDigitVal (hexDigitCh d) = d := by decide

theorem hexValNat_append_digit (l : Str) (d : Nat) :
    hexValNat (l ++ [d]) = 16 * hexValNat l + hexDigitVal d := by
  simp [hexValNat, List.foldl_append]

/-- `natHex` is a correct hex numeral: folding its digits back recovers the
value. -/
theorem hexValNat_natHex (n : Nat) : hexValNat (natHex n) = n := by
  induction n using Nat.strong_induction_on with
  | _ n ih =>
    by_cases h16 : n < 16
    · rw [natHex_small h16]
      simp [hexValNat, hexDigitVal_hexDigitCh n h16]
    · rw [natHex_cons (by omega), hexValNat_append_digit,
        ih (n / 16) (Nat.div_lt_self (by omega) (by omega)),
        hexDigitVal_hexDigitCh _ (Nat.mod_lt _ (by omega))]
      omega

theorem natHex_ne_nil (n : Nat) : natHex n ≠ [] := by
  by_cases h16 : n < 16
  · rw [natHex_small h16]; simp
  · rw [natHex_cons (by omega)]; simp

theorem hexDigitCh_range : ∀ d, d < 16 → (48 ≤ hexDigitCh d ∧ hexDigitCh d ≤ 57) ∨
    (97 ≤ hexDigitCh d ∧ hexDigitCh d ≤ 102) := by decide

/-- Every character of `natHex` is a lowercase hex digit (`'0'..'9'` or
`'a'..'f'`) — in particular there is no `0x` prefix. -/
theorem natHex_digits (n : Nat) :
    ∀ c ∈ natHex n, (48 ≤ c ∧ c ≤ 57) ∨ (97 ≤ c ∧ c ≤ 102) := by
  induction n using Nat.strong_induction_on with
  | _ n ih =>
    intro c hc
    by_cases h16 : n < 16
    · rw [natHex_small h16] at hc
      simp only [List.mem_singleton] at hc
      subst hc
      exact hexDigitCh_range n h16
    · rw [natHex_cons (by omega)] at hc
      rcases List.mem_append.mp hc with h1 | h1
      · exact ih (n / 16) (Nat.div_lt_self (by omega) (by omega)) c h1
      · simp only [List.mem_singleton] at h1
        subst h1
        exact hexDigitCh_range _ (Nat.mod_lt _ (by omega))

theorem hexDigitCh_ne_48 : ∀ d, d < 16 → d ≠ 0 → hexDigitCh d ≠ 48 := by decide

/-- `natHex` has no superfluous leading zero. -/
theorem natHex_head_ne_zero (n : Nat) (h : n ≠ 0) : (natHex n).head? ≠ some 48 := by
  induction n using Nat.strong_induction_on with
  | _ n ih =>
    by_cases h16 : n < 16
    · rw [natHex_small h16]
      simpa using hexDigitCh_ne_48 n h16 h
    · rw [natHex_cons (by omega)]
      have hne := natHex_ne_nil (n / 16)
      rcases hh : natHex (n / 16) with _ | ⟨a, t⟩
      · exact absurd hh hne
      · have := ih (n / 16) (Nat.div_lt_self (by omega) (by omega)) (by omega)
        rw [hh] at this
        simpa using this

/-- Claim C3: the INT_HEX arm renders the 32-bit value −1 as the decimal
string `"-1"` and every other value as the lowercase hexadecimal of the value
reinterpreted as `uint32_t`: the digits fold back to exactly
`(v mod 2^32)`, every character is `'0'..'9'` or `'a'..'f'` (no `0x`
prefix), and there is no leading zero except for the single digit `"0"`
itself.  The LONG_HEX arm obeys the same law over 64 bits. -/
theorem c3_hex_rendering (v w : Int) :
    (renderIntHex (-1) = [45, 49] ∧ renderLongHex (-1) = [45, 49]) ∧
    (v ≠ -1 →
      hexValNat (renderIntHex v) = (v % 2 ^ 32).toNat ∧
      (∀ c ∈ renderIntHex v, (48 ≤ c ∧ c ≤ 57) ∨ (97 ≤ c ∧ c ≤ 102)) ∧
      ((v % 2 ^ 32).toNat ≠ 0 → (renderIntHex v).head? ≠ some 48) ∧
      ((v % 2 ^ 32).toNat = 0 → renderIntHex v = [48])) ∧
    (w ≠ -1 →
      hexValNat (renderLongHex w) = (w % 2 ^ 64).toNat ∧
      (∀ c ∈ renderLongHex w, (48 ≤ c ∧ c ≤ 57) ∨ (97 ≤ c ∧ c ≤ 102)) ∧
      ((w % 2 ^ 64).toNat ≠ 0 → (renderLongHex w).head? ≠ some 48) ∧
      ((w % 2 ^ 64).toNat = 0 → renderLongHex w = [48])) := by
  refine ⟨⟨by decide, by decide⟩, ?_, ?_⟩
  · intro hv
    rw [renderIntHex, if_neg hv]
    refine ⟨hexValNat_natHex _, natHex_digits _, natHex_head_ne_zero _, ?_⟩
    intro h0
    rw [h0]
    decide
  · intro hw
    rw [renderLongHex, if_neg hw]
    refine ⟨hexValNat_natHex _, natHex_digits _, natHex_head_ne_zero _, ?_⟩
    intro h0
    rw [h0]
    decide

/-- Witness for C3 at `v = -2` (renders `"fffffffe"`) and `w = 255`
(renders `"ff"`). -/
theorem c3_hex_rendering_witness :
    renderIntHex (-1) = [45, 49] ∧
    ((-2 : Int) ≠ -1 ∧ hexValNat (renderIntHex (-2)) = ((-2 : Int) % 2 ^ 32).toNat) ∧
    ((255 : Int) ≠ -1 ∧ hexValNat (renderLongHex 255) = ((255 : Int) % 2 ^ 64).toNat) :=
  ⟨(c3_hex_rendering 0 0).1.1,
   ⟨by decide, ((c3_hex_rendering (-2) 0).2.1 (by decide)).1⟩,
   ⟨by decide, ((c3_hex_rendering 0 255).2.2 (by decide)).1⟩⟩

end Abx

namespace Abx

/-! ### Claim C7: EOF handling of the deserializer

A failed primitive read always leaves the stream exhausted (the model's
`.eof` errors carry an empty input), which is why the token loop's
`catch { if (eof) break; throw; }` turns every truncation into a normal
return. -/

theorem readByteD_eof {st : DIn} {e : Err} {st' : DIn}
    (h : readByteD st = .error (e, st')) : e = .eof ∧ st'.input = [] := by
  cases hst : st.input with
  | nil =>
      simp only [readByteD, hst] at h
      cases h
      exact ⟨rfl, hst⟩
  | cons b rest => simp [readByteD, hst] at h

theorem takeBytesD_eof {len : Nat} {st : DIn} {e : Err} {st' : DIn}
    (h : takeBytesD len st = .error (e, st')) : e = .eof ∧ st'.input = [] := by
  by_cases hl : len ≤ st.input.length
  · simp [takeBytesD, hl] at h
  · simp only [takeBytesD, hl, if_false, ite_false] at h
    cases h
    exact ⟨rfl, rfl⟩

theorem readShortD_eof {st : DIn} {e : Err} {st' : DIn}
    (h : readShortD st = .error (e, st')) : e = .eof ∧ st'.input = [] := by
  unfold readShortD at h
  cases h1 : readByteD st with
  | error p =>
      obtain ⟨e1, s1⟩ := p
      rw [h1] at h
      cases h
      exact readByteD_eof h1
  | ok v =>
      obtain ⟨b1, st1⟩ := v
      rw [h1] at h
      dsimp only at h
      cases h2 : readByteD st1 with
      | error p =>
          obtain ⟨e1, s1⟩ := p
          rw [h2] at h
          cases h
          exact readByteD_eof h2
      | ok w =>
          obtain ⟨b2, st2⟩ := w
          rw [h2] at h
          cases h

theorem readUTFD_eof {st : DIn} {e : Err} {st' : DIn}
    (h : readUTFD st = .error (e, st')) : e = .eof ∧ st'.input = [] := by
  unfold readUTFD at h
  cases h1 : readShortD st with
  | error p =>
      obtain ⟨e1, s1⟩ := p
      rw [h1] at h
      cases h
      exact readShortD_eof h1
  | ok v =>
      obtain ⟨len, st1⟩ := v
      rw [h1] at h
      exact takeBytesD_eof h

theorem readIntD_eof {st : DIn} {e : Err} {st' : DIn}
    (h : readIntD st = .error (e, st')) : e = .eof ∧ st'.input = [] := by
  unfold readIntD at h
  cases h1 : takeBytesD 4 st with
  | error p =>
      obtain ⟨e1, s1⟩ := p
      rw [h1] at h
      cases h
      exact takeBytesD_eof h1
  | ok v =>
      obtain ⟨bs, st1⟩ := v
      rw [h1] at h
      cases h

theorem readLongD_eof {st : DIn} {e : Err} {st' : DIn}
    (h : readLongD st = .error (e, st')) : e = .eof ∧ st'.input = [] := by
  unfold readLongD at h
  cases h1 : takeBytesD 8 st with
  | error p =>
      obtain ⟨e1, s1⟩ := p
      rw [h1] at h
      cases h
      exact takeBytesD_eof h1
  | ok v =>
      obtain ⟨bs, st1⟩ := v
      rw [h1] at h
      cases h

theorem readInternedUTFD_eof {st : DIn} {e : Err} {st' : DIn}
    (h : readInternedUTFD st = .error (e, st')) (he : e = .eof) : st'.input = [] := by
  unfold readInternedUTFD at h
  cases h1 : readShortD st with
  | error p =>
      obtain ⟨e1, s1⟩ := p
      rw [h1] at h
      cases h
      exact (readShortD_eof h1).2
  | ok v =>
      obtain ⟨idx, st1⟩ := v
      rw [h1] at h
      dsimp only at h
      by_cases hidx : idx = 65535
      · simp only [hidx, if_true, reduceIte] at h
        cases h2 : readUTFD st1 with
        | error p =>
            obtain ⟨e1, s1⟩ := p
            rw [h2] at h
            cases h
            exact (readUTFD_eof h2).2
        | ok w =>
            obtain ⟨s, st2⟩ := w
            rw [h2] at h
            cases h
      · simp only [hidx, if_false, ite_false] at h
        by_cases hlt : idx < st1.pool.length
        · simp [hlt] at h
        · simp only [hlt, if_false, ite_false] at h
          cases h
          exact absurd he (by simp)

theorem decodeStep_eof {st : DIn} {acc : Str} {e : Err} {st' : DIn} {acc' : Str}
    (h : decodeStep st acc = .err e st' acc') (he : e = .eof) : st'.input = [] := by
  unfold decodeStep at h
  cases h0 : readByteD st with
  | error p =>
      obtain ⟨e1, s1⟩ := p
      rw [h0] at h
      cases h
      exact (readByteD_eof h0).2
  | ok v =>
      obtain ⟨token, st1⟩ := v
      simp only [h0] at h
      repeat' split at h
      all_goals cases h
      all_goals
        first
          | exact readInternedUTFD_eof (by assumption) he
          | exact (readUTFD_eof (by assumption)).2
          | exact (readByteD_eof (by assumption)).2

/-- The token loop never surfaces an EOF error: a truncation breaks the loop
and returns the output produced so far. -/
theorem decodeLoop_ne_eof :
    ∀ (fuel : Nat) (st : DIn) (acc : Str) (e : Err),
      decodeLoop fuel st acc = .error e → e ≠ .eof := by
  intro fuel
  induction fuel with
  | zero => intro st acc e h; cases h
  | succ f ih =>
      intro st acc e h
      unfold decodeLoop at h
      by_cases hst : st.input = []
      · simp [hst] at h
      · simp only [hst, if_false, ite_false] at h
        cases hs : decodeStep st acc with
        | done acc1 => rw [hs] at h; cases h
        | cont st1 acc1 =>
            rw [hs] at h
            exact ih st1 acc1 e h
        | err e1 st1 acc1 =>
            rw [hs] at h
            dsimp only at h
            by_cases h1 : st1.input = []
            · simp [h1] at h
            · simp only [h1, if_false, ite_false] at h
              cases h
              intro he
              exact h1 (decodeStep_eof hs he)

/-- Amended claim C7 (and the strict half of C2's reader behaviour): once the
four magic bytes are in place, `deserialize` never fails with
`UnexpectedEof`.  Premature end-of-input inside any token or payload is
swallowed by the loop's catch (`if (mIn->eof()) break;`) and decoding returns
normally with the text produced so far; the only errors that survive are
those thrown with input remaining (an invalid interned-string index). -/
theorem c7_truncation_returns_normally (bs : List Nat) (e : Err)
    (hm : bs.take 4 = [65, 66, 88, 0]) (hr : deserialize bs = .error e) :
    e ≠ .eof := by
  rcases bs with _ | ⟨b0, _ | ⟨b1, _ | ⟨b2, _ | ⟨b3, rest⟩⟩⟩⟩ <;> simp at hm
  obtain ⟨rfl, rfl, rfl, rfl⟩ := hm
  simp only [deserialize, and_self, if_true, reduceIte] at hr
  exact decodeLoop_ne_eof _ _ _ e hr

/-- Counterexample to C7 as stated: the stream `magic 10 24 00` ends inside
the TEXT payload length (one of two length bytes present), yet `deserialize`
returns normally with empty output instead of an `UnexpectedEof` error. -/
theorem c7_counterexample :
    deserialize [65, 66, 88, 0, 16, 36, 0] = .ok [] := by decide

/-- Witness for C7: at the concrete stream whose START_TAG carries intern
index 0 into an empty pool with input remaining, `deserialize` fails with
`BadInternIndex` — which is indeed not `UnexpectedEof`. -/
theorem c7_truncation_returns_normally_witness :
    ([65, 66, 88, 0, 50, 0, 0, 17] : List Nat).take 4 = [65, 66, 88, 0] ∧
      deserialize [65, 66, 88, 0, 50, 0, 0, 17] = .error .badInternIndex ∧
      Err.badInternIndex ≠ Err.eof :=
  ⟨by decide, by decide,
   c7_truncation_returns_normally [65, 66, 88, 0, 50, 0, 0, 17] .badInternIndex
     (by decide) (by decide)⟩

end Abx

namespace Abx

/-! ### Claim C4: unknown attribute type -/

/-- Amended claim C4, part of the mechanism: `processAttribute` itself does
throw `UnknownAttributeType` on a token whose high nibble is none of the 13
defined type codes — after the attribute name has been read (and possibly
interned) and the `" name=\x22"` prefix has been streamed to the output,
leaving the input right behind the name. -/
theorem c4_process_attribute_unknown (token : Nat) (st st1 : DIn) (name : Str)
    (hty : highType token ∉ ([32, 48, 96, 112, 128, 144, 160, 176, 192, 208, 64, 80, 16] : List Nat))
    (hname : readInternedUTFD st = .ok (name, st1)) :
    processAttribute token st
      = .error (.unknownAttributeType, 32 :: (name ++ [61, 34]), st1) := by
  simp only [List.mem_cons, List.mem_singleton, not_or] at hty
  obtain ⟨h1, h2, h3, h4, h5, h6, h7, h8, h9, h10, h11, h12, -⟩ := hty
  simp only [processAttribute, hname, h1, h2, h3, h4, h5, h6, h7, h8, h9, h10,
    h11, h12, if_false, ite_false]

/-- Amended claim C4, the catch: the attribute sub-loop catches any
non-truncation error from `processAttribute` (including
`UnknownAttributeType`), rewinds to the token byte, emits `">"` after the
partial attribute text already streamed before the throw, and breaks — the
error does not surface.  The pool mutations made before the throw persist. -/
theorem c4_attr_loop_swallows (fuel : Nat) (st st1 st2 : DIn) (acc out : Str)
    (tok : Nat) (e : Err)
    (hread : readByteD st = .ok (tok, st1)) (hattr : tok % 16 = 15)
    (hpa : processAttribute tok st1 = .error (e, out, st2)) (hne : e ≠ .eof) :
    attrLoop (fuel + 1) st acc = (acc ++ out ++ [62], { st2 with input := st.input }) := by
  cases e <;>
    first
      | exact absurd rfl hne
      | (simp only [attrLoop, hread, hattr, if_true, reduceIte, hpa])
      | (simp only [attrLoop, hread, hattr, if_true, reduceIte, hpa]; rfl)

/-- Counterexample to C4 as stated: a stream containing an ATTRIBUTE token
with undefined high nibble `0xE0` (byte `0xEF`), inside
`<a …`.  `processAttribute` reads the name `b`, streams the partial
attribute text (space, `b`, `=`, quote), then throws `UnknownAttributeType`;
the sub-loop catches it, rewinds, and the outer loop then consumes `0xEF` as
an unknown command and skips it; the following bytes are consumed as
commands until the `0x01` low nibble (END_DOCUMENT).  The document decodes
with no error to the bytes of `<a b=\x22>`: the failure is never surfaced to
the caller. -/
theorem c4_counterexample :
    highType 239 = 224 ∧
    (224 : Nat) ∉ ([32, 48, 96, 112, 128, 144, 160, 176, 192, 208, 64, 80, 16] : List Nat) ∧
    (239 : Nat) % 16 = 15 ∧
    deserialize [65, 66, 88, 0, 16, 50, 255, 255, 0, 1, 97, 239, 255, 255, 0, 1, 98, 17]
      = .ok [60, 97, 32, 98, 61, 34, 62] := by
  refine ⟨by decide, by decide, by decide, by decide⟩

/-- Witness for C4 at a concrete token `0xEF` and stream position: the name
`"b"` is read (and interned), the partial text `" b=\x22"` is streamed, then
the unknown nibble throws; and the sub-loop swallows exactly that error,
keeping the partial text in the output. -/
theorem c4_witness :
    processAttribute 239 ⟨[], [255, 255, 0, 1, 98, 17]⟩
      = .error (.unknownAttributeType, [32, 98, 61, 34], ⟨[[98]], [17]⟩) ∧
    attrLoop 1 ⟨[], [239, 255, 255, 0, 1, 98, 17]⟩ []
      = ([32, 98, 61, 34, 62], ⟨[[98]], [239, 255, 255, 0, 1, 98, 17]⟩) :=
  ⟨c4_process_attribute_unknown 239 ⟨[], [255, 255, 0, 1, 98, 17]⟩ ⟨[[98]], [17]⟩ [98]
     (by decide) (by decide),
   c4_attr_loop_swallows 0 ⟨[], [239, 255, 255, 0, 1, 98, 17]⟩
     ⟨[], [255, 255, 0, 1, 98, 17]⟩ ⟨[[98]], [17]⟩ [] [32, 98, 61, 34] 239
     .unknownAttributeType
     (by decide) (by decide)
     (c4_process_attribute_unknown 239 ⟨[], [255, 255, 0, 1, 98, 17]⟩ ⟨[[98]], [17]⟩ [98]
       (by decide) (by decide))
     (by decide)⟩

end Abx

namespace Abx

/-! ## XML DOM and the serializer driver
(`process_xml_node_internal`, abx.cc lines 749-882; `convertXmlStringToAbx`,
lines 923-944)

The external XML parser (pugixml) is a black-box collaborator producing a
tree of typed nodes; the driver walks it depth-first.  `decl` models
`node_declaration`, which the driver skips. -/

mutual
inductive XNode where
  | element : Str → List (Str × Str) → XForest → XNode
  | pcdata : Str → XNode
  | cdata : Str → XNode
  | comment : Str → XNode
  | pi : Str → Str → XNode
  | doctype : Str → XNode
  | decl : XNode
  deriving DecidableEq
inductive XForest where
  | nil : XForest
  | cons : XNode → XForest → XForest
  deriving DecidableEq
end

/-- One attribute of the driver: dispatch the serializer call selected by the
inference ladder (`inferAttr`). -/
def encAttr (name value : Str) (st : SOut) : Except Err (Str × SOut) :=
  match inferAttr value with
  | .abool b => attributeBooleanS name b st
  | .aintHex v => attributeIntHexS name v st
  | .alongHex v => attributeLongHexS name v st
  | .aint v => attributeIntS name v st
  | .along v => attributeLongS name v st
  | .afloat bits => attributeFloatS name bits st
  | .astrI => attributeInternedS name value st
  | .astr => attributeS name value st

/-- The attribute loop of the element arm, in document order. -/
def encAttrs : List (Str × Str) → SOut → Except Err (Str × SOut)
  | [], st => .ok ([], st)
  | (nm, v) :: rest, st =>
      match encAttr nm v st with
      | .error e => .error e
      | .ok (b1, st1) =>
          match encAttrs rest st1 with
          | .error e => .error e
          | .ok (b2, st2) => .ok (b1 ++ b2, st2)

mutual
/-- `process_xml_node_internal` for one node: an element is startTag,
attributes, children, endTag; pcdata is TEXT, or IGNORABLE_WHITESPACE when
whitespace-only (dropped entirely under `collapse_whitespaces`); CDATA,
comment, PI (`"target"` or `"target data"`), doctype map to their tokens; an
XML declaration is skipped. -/
def encNode (collapse : Bool) : XNode → SOut → Except Err (Str × SOut)
  | .element name attrs children, st =>
      (match startTagS name st with
      | .error e => .error e
      | .ok (b1, st1) =>
          match encAttrs attrs st1 with
          | .error e => .error e
          | .ok (b2, st2) =>
              match encForest collapse children st2 with
              | .error e => .error e
              | .ok (b3, st3) =>
                  match endTagS name st3 with
                  | .error e => .error e
                  | .ok (b4, st4) => .ok (b1 ++ b2 ++ b3 ++ b4, st4))
  | .pcdata s, st =>
      if isWsOnly s then
        (if collapse then .ok ([], st) else writeTokenS 7 s st)
      else writeTokenS 4 s st
  | .cdata s, st => writeTokenS 5 s st
  | .comment s, st => writeTokenS 9 s st
  | .pi target data, st =>
      writeTokenS 8 (if data = [] then target else target ++ 32 :: data) st
  | .doctype s, st => writeTokenS 10 s st
  | .decl, st => .ok ([], st)
/-- The driver over an ordered child list. -/
def encForest (collapse : Bool) : XForest → SOut → Except Err (Str × SOut)
  | .nil, st => .ok ([], st)
  | .cons n t, st =>
      match encNode collapse n st with
      | .error e => .error e
      | .ok (b1, st1) =>
          match encForest collapse t st1 with
          | .error e => .error e
          | .ok (b2, st2) => .ok (b1 ++ b2, st2)
end

/-- `convertXmlStringToAbx` on an already-parsed document: the serializer
constructor writes the magic, `startDocument`, all document children,
`endDocument`. -/
def encodeDoc (collapse : Bool) (doc : XForest) : Except Err (List Nat) :=
  let st0 : SOut := ⟨[], []⟩
  let r1 := startDocumentS st0
  match encForest collapse doc r1.2 with
  | .error e => .error e
  | .ok (body, st) => .ok (protocolMagic ++ r1.1 ++ body ++ (endDocumentS st).1)

/-! ### Claim C2: the magic invariant -/

/-- Claim C2: every byte stream the serializer driver produces starts with
the magic `41 42 58 00`, written exactly once by the constructor and followed
immediately by the first token (START_DOCUMENT, 0x10); and the deserializer
constructor fails with `BadMagic` on any input whose first four bytes differ
from the magic, before any token processing and before emitting any output
(an `Except.error` result carries no output text). -/
theorem c2_magic :
    (∀ (collapse : Bool) (doc : XForest) (out : List Nat),
        encodeDoc collapse doc = .ok out →
        ∃ body, out = 65 :: 66 :: 88 :: 0 :: (16 :: body)) ∧
    (∀ bs : List Nat, 4 ≤ bs.length → bs.take 4 ≠ [65, 66, 88, 0] →
        deserialize bs = .error .badMagic) := by
  constructor
  · intro collapse doc out henc
    simp only [encodeDoc, startDocumentS, endDocumentS, protocolMagic] at henc
    cases hf : encForest collapse doc ⟨[], []⟩ with
    | error e => rw [hf] at henc; cases henc
    | ok v =>
        obtain ⟨body, st⟩ := v
        rw [hf] at henc
        cases henc
        exact ⟨body ++ [17], by simp⟩
  · intro bs hlen hm
    rcases bs with _ | ⟨b0, _ | ⟨b1, _ | ⟨b2, _ | ⟨b3, rest⟩⟩⟩⟩ <;> simp at hlen
    have hm4 : ¬ (b0 = 65 ∧ b1 = 66 ∧ b2 = 88 ∧ b3 = 0) := by
      intro ⟨h0, h1, h2, h3⟩
      exact hm (by simp [h0, h1, h2, h3])
    simp only [deserialize, hm4, if_false, ite_false]

/-- Witness for C2: the empty document encodes to exactly
`magic ++ [0x10, 0x11]`, and a stream starting `00 00 00 00` fails
`BadMagic`. -/
theorem c2_magic_witness :
    (encodeDoc false .nil = .ok [65, 66, 88, 0, 16, 17] ∧
      ∃ body, ([65, 66, 88, 0, 16, 17] : List Nat) = 65 :: 66 :: 88 :: 0 :: (16 :: body)) ∧
    (4 ≤ ([0, 0, 0, 0] : List Nat).length ∧
      deserialize [0, 0, 0, 0] = .error .badMagic) :=
  ⟨⟨by decide, c2_magic.1 false .nil [65, 66, 88, 0, 16, 17] (by decide)⟩,
   ⟨by decide, c2_magic.2 [0, 0, 0, 0] (by decide) (by decide)⟩⟩

end Abx

namespace Abx

/-! ## Claim C1: round trip

`renderForest` is the spec side of the refinement: the canonical XML text of
a DOM (entity-escaped text and attribute values, explicit open and close
tags, whitespace-only text dropped exactly when `collapse_whitespace` is on).
Claim C1's "DOM-equivalent" output is formalised as: decoding the encoded
document yields precisely this canonical text of the (whitespace-filtered)
DOM. -/

/-- Canonical text of one attribute: `" name=\x22value\x22"` with the value
entity-escaped. -/
def renderAttr (a : Str × Str) : Str :=
  32 :: (a.1 ++ [61, 34] ++ encodeXmlEntities a.2 ++ [34])

/-- Canonical text of an attribute list. -/
def renderAttrs (attrs : List (Str × Str)) : Str :=
  attrs.foldr (fun a acc => renderAttr a ++ acc) []

mutual
/-- Canonical XML text of a node (the spec side of C1). -/
def renderNode (collapse : Bool) : XNode → Str
  | .element name attrs children =>
      60 :: (name ++ renderAttrs attrs ++ [62]) ++ renderForest collapse children
        ++ [60, 47] ++ name ++ [62]
  | .pcdata s =>
      if isWsOnly s then (if collapse then [] else s) else encodeXmlEntities s
  | .cdata s => [60, 33, 91, 67, 68, 65, 84, 65, 91] ++ s ++ [93, 93, 62]
  | .comment s => [60, 33, 45, 45] ++ s ++ [45, 45, 62]
  | .pi target data =>
      [60, 63] ++ (if data = [] then target else target ++ 32 :: data) ++ [63, 62]
  | .doctype s => [60, 33, 68, 79, 67, 84, 89, 80, 69, 32] ++ s ++ [62]
  | .decl => []
/-- Canonical XML text of a forest. -/
def renderForest (collapse : Bool) : XForest → Str
  | .nil => []
  | .cons n t => renderNode collapse n ++ renderForest collapse t
end

mutual
/-- Number of outer token-loop rounds the decoder spends on a node's bytes. -/
def iterNode (collapse : Bool) : XNode → Nat
  | .element _ _ children => 2 + iterForest collapse children
  | .pcdata s => if isWsOnly s ∧ collapse = true then 0 else 1
  | .decl => 0
  | _ => 1
/-- Token-loop rounds for a forest's bytes. -/
def iterForest (collapse : Bool) : XForest → Nat
  | .nil => 0
  | .cons n t => iterNode collapse n + iterForest collapse t
end

mutual
/-- Every attribute value in the tree stays in the string arms of the
inference ladder (claim C1's "plain string" precondition). -/
def plainNode : XNode → Bool
  | .element _ attrs children =>
      attrs.all (fun a => decide (inferAttr a.2 = .astr ∨ inferAttr a.2 = .astrI))
        && plainForest children
  | _ => true
/-- See `plainNode`. -/
def plainForest : XForest → Bool
  | .nil => true
  | .cons n t => plainNode n && plainForest t
end

end Abx

namespace Abx

/-! ### Writer/reader duality -/

/-- Bytes written by `writeUTF` read back as the same string through
`readUTF`, leaving the trailing input and the pool untouched. -/
theorem writeUTFW_read {s bs : Str} (h : writeUTFW s = .ok bs)
    (pool : List Str) (rest : List Nat) :
    readUTFD ⟨pool, bs ++ rest⟩ = .ok (s, ⟨pool, rest⟩) := by
  unfold writeUTFW at h
  by_cases hlen : s.length > maxUnsignedShort
  · rw [if_pos hlen] at h; cases h
  · rw [if_neg hlen] at h
    cases h
    simp only [maxUnsignedShort, gt_iff_lt, not_lt] at hlen
    simp only [writeShortW, readUTFD, readShortD, readByteD, List.cons_append,
      List.append_assoc]
    have hv : s.length / 256 % 256 * 256 + s.length % 256 = s.length := by omega
    rw [hv]
    simp only [takeBytesD, List.length_append, Nat.le_add_right, if_pos,
      List.take_left, List.drop_left, reduceIte]
    simp

/-- Bytes written by `writeInternedUTF` read back as the same string through
`readInternedUTF`, and the two pools stay in lock step. -/
theorem writeInternedUTFW_read {pool : List Str} {s bs : Str} {pool' : List Str}
    (h : writeInternedUTFW pool s = .ok (bs, pool')) (hlen : pool.length ≤ 65535)
    (rest : List Nat) :
    readInternedUTFD ⟨pool, bs ++ rest⟩ = .ok (s, ⟨pool', rest⟩) ∧
      pool'.length ≤ 65535 := by
  unfold writeInternedUTFW at h
  cases hidx : poolIdx pool s with
  | some i =>
      rw [hidx] at h
      cases h
      obtain ⟨hi, hget⟩ := poolIdx_some hidx
      constructor
      · simp only [writeShortW, readInternedUTFD, readShortD, readByteD,
          List.cons_append]
        have hv : i / 256 % 256 * 256 + i % 256 = i := by omega
        rw [hv]
        rw [if_neg (by omega), if_pos hi, hget]
        simp
      · exact hlen
  | none =>
      rw [hidx] at h
      by_cases hfull : pool.length ≥ maxUnsignedShort
      · rw [if_pos hfull] at h; cases h
      · rw [if_neg hfull] at h
        simp only [maxUnsignedShort, ge_iff_le, not_le] at hfull
        cases hw : writeUTFW s with
        | error e => rw [hw] at h; cases h
        | ok ubs =>
            rw [hw] at h
            cases h
            constructor
            · simp only [writeShortW, readInternedUTFD, readShortD, readByteD,
                List.cons_append, List.append_assoc]
              norm_num
              rw [writeUTFW_read hw pool rest]
            · simp only [List.length_append, List.length_singleton]
              omega

end Abx

namespace Abx

/-- One encoded plain-string attribute record decodes through
`processAttribute` to its canonical text, with pools in lock step. -/
theorem encAttr_sim {name value : Str} {st : SOut} {bs : Str} {st' : SOut}
    (h : encAttr name value st = .ok (bs, st'))
    (hplain : inferAttr value = .astr ∨ inferAttr value = .astrI)
    (hlen : st.pool.length ≤ 65535) :
    st'.pool.length ≤ 65535 ∧ st'.stack = st.stack ∧
    ∃ tok bs', bs = tok :: bs' ∧ tok % 16 = 15 ∧
      ∀ rest, processAttribute tok ⟨st.pool, bs' ++ rest⟩
        = .ok (renderAttr (name, value), ⟨st'.pool, rest⟩) := by
  rcases hplain with hp | hp
  · rw [encAttr, hp] at h
    unfold attributeS at h
    cases hw : writeInternedUTFW st.pool name with
    | error e => rw [hw] at h; cases h
    | ok v =>
        obtain ⟨nb, pool1⟩ := v
        rw [hw] at h
        dsimp only at h
        cases hv : writeUTFW value with
        | error e => rw [hv] at h; cases h
        | ok vb =>
            rw [hv] at h
            cases h
            obtain ⟨hr, hp1⟩ := writeInternedUTFW_read hw hlen []
            refine ⟨hp1, rfl, 47, nb ++ vb, rfl, by decide, ?_⟩
            intro rest
            obtain ⟨hrn, -⟩ := writeInternedUTFW_read hw hlen (vb ++ rest)
            simp only [processAttribute, List.append_assoc, hrn]
            rw [show highType 47 = 32 from rfl]
            simp only [if_pos, reduceIte, writeUTFW_read hv pool1 rest]
            simp [renderAttr]
  · rw [encAttr, hp] at h
    unfold attributeInternedS at h
    cases hw : writeInternedUTFW st.pool name with
    | error e => rw [hw] at h; cases h
    | ok v =>
        obtain ⟨nb, pool1⟩ := v
        rw [hw] at h
        dsimp only at h
        cases hv : writeInternedUTFW pool1 value with
        | error e => rw [hv] at h; cases h
        | ok w =>
            obtain ⟨vb, pool2⟩ := w
            rw [hv] at h
            cases h
            obtain ⟨-, hp1⟩ := writeInternedUTFW_read hw hlen []
            obtain ⟨-, hp2⟩ := writeInternedUTFW_read hv hp1 []
            refine ⟨hp2, rfl, 63, nb ++ vb, rfl, by decide, ?_⟩
            intro rest
            obtain ⟨hrn, -⟩ := writeInternedUTFW_read hw hlen (vb ++ rest)
            obtain ⟨hrv, -⟩ := writeInternedUTFW_read hv hp1 rest
            simp only [processAttribute, List.append_assoc, hrn]
            rw [show highType 63 = 48 from rfl]
            simp only [reduceIte, hrv]
            simp [renderAttr]

/-- Unfolding equation of the attribute sub-loop at positive fuel. -/
theorem attrLoop_succ (fuel : Nat) (st : DIn) (acc : Str) :
    attrLoop (fuel + 1) st acc =
      match readByteD st with
      | .error e => (acc ++ [62], e.2)
      | .ok (tok, st1) =>
          if tok % 16 = 15 then
            match processAttribute tok st1 with
            | .ok (out, st2) => attrLoop fuel st2 (acc ++ out)
            | .error (.eof, out, st2) => (acc ++ out ++ [62], st2)
            | .error (_, out, st2) => (acc ++ out ++ [62], { st2 with input := st.input })
          else (acc ++ [62], { st1 with input := st.input }) := rfl

/-- An encoded run of plain-string attributes is consumed by the attribute
sub-loop, which then peeks the following non-ATTRIBUTE byte, rewinds, and
emits `">"`. -/
theorem encAttrs_sim : ∀ (attrs : List (Str × Str)) (st : SOut) (bs : Str) (st' : SOut),
    encAttrs attrs st = .ok (bs, st') →
    attrs.all (fun a => decide (inferAttr a.2 = .astr ∨ inferAttr a.2 = .astrI)) = true →
    st.pool.length ≤ 65535 →
    st'.pool.length ≤ 65535 ∧ st'.stack = st.stack ∧ attrs.length ≤ bs.length ∧
    ∀ (w : Nat) (tail : List Nat) (acc : Str) (j : Nat), w % 16 ≠ 15 →
      attrLoop (attrs.length + (j + 1)) ⟨st.pool, bs ++ w :: tail⟩ acc
        = (acc ++ renderAttrs attrs ++ [62], ⟨st'.pool, w :: tail⟩) := by
  intro attrs
  induction attrs with
  | nil =>
      intro st bs st' h hall hlen
      cases h
      refine ⟨hlen, rfl, by simp, ?_⟩
      intro w tail acc j hw
      simp only [List.length_nil, Nat.zero_add, List.nil_append]
      rw [attrLoop_succ]
      simp only [readByteD, hw, if_false, ite_false]
      simp [renderAttrs]
  | cons a rest ih =>
      intro st bs st' h hall hlen
      obtain ⟨nm, v⟩ := a
      simp only [List.all_cons, Bool.and_eq_true, decide_eq_true_eq] at hall
      obtain ⟨hpa, hprest⟩ := hall
      unfold encAttrs at h
      cases h1 : encAttr nm v st with
      | error e => rw [h1] at h; cases h
      | ok p =>
          obtain ⟨b1, st1⟩ := p
          rw [h1] at h
          dsimp only at h
          cases h2 : encAttrs rest st1 with
          | error e => rw [h2] at h; cases h
          | ok q =>
              obtain ⟨b2, st2⟩ := q
              rw [h2] at h
              cases h
              obtain ⟨hl1, hs1, tok, bs', rfl, htok, hproc⟩ := encAttr_sim h1 hpa hlen
              obtain ⟨hl2, hs2, hcount, hloop⟩ := ih st1 b2 _ h2 hprest hl1
              refine ⟨hl2, hs2.trans hs1, by simp; omega, ?_⟩
              intro w tail acc j hw
              simp only [List.length_cons, List.cons_append]
              rw [show rest.length + 1 + (j + 1) = (rest.length + (j + 1)) + 1 from by omega]
              rw [attrLoop_succ]
              simp only [readByteD, htok, eq_self_iff_true, if_true, reduceIte,
                List.append_assoc]
              simp only [hproc (b2 ++ w :: tail)]
              rw [hloop w tail (acc ++ renderAttr (nm, v)) j hw]
              simp [renderAttrs, List.append_assoc]

end Abx

namespace Abx

/-- Unfolding equation of the token loop at positive fuel. -/
theorem decodeLoop_succ (fuel : Nat) (st : DIn) (acc : Str) :
    decodeLoop (fuel + 1) st acc =
      if st.input = [] then .ok acc
      else match decodeStep st acc with
        | .done acc1 => .ok acc1
        | .cont st1 acc1 => decodeLoop fuel st1 acc1
        | .err e st1 acc1 => if st1.input = [] then .ok acc1 else .error e := rfl

theorem writeTokenS_ok {cmd : Nat} {text : Str} {st : SOut} {bs : Str} {st' : SOut}
    (h : writeTokenS cmd text st = .ok (bs, st')) :
    ∃ ubs, writeUTFW text = .ok ubs ∧ bs = (cmd + 32) :: ubs ∧ st' = st := by
  unfold writeTokenS at h
  cases hw : writeUTFW text with
  | error e => rw [hw] at h; cases h
  | ok ubs => rw [hw] at h; cases h; exact ⟨ubs, rfl, rfl, rfl⟩

/-- A one-token record with a UTF payload advances the loop by one round and
appends its rendering. -/
theorem utf_token_sim {tok : Nat} {P : List Str} {ubs out : Str}
    (hstep : ∀ rest acc, decodeStep ⟨P, tok :: (ubs ++ rest)⟩ acc = .cont ⟨P, rest⟩ (acc ++ out)) :
    ∀ (rest : List Nat) (acc : Str) (k : Nat),
      decodeLoop (1 + k) ⟨P, (tok :: ubs) ++ rest⟩ acc
        = decodeLoop k ⟨P, rest⟩ (acc ++ out) := by
  intro rest acc k
  rw [show 1 + k = k + 1 from by omega, decodeLoop_succ]
  rw [if_neg (by simp), List.cons_append, hstep rest acc]


/-- The simulation invariant: encoded bytes of a plain-attribute forest decode
to its canonical text, with the reader pool tracking the writer pool, using
one loop round per `iterForest` unit.  Also: the writer pool stays within
bounds, the byte count dominates the round count, and the first byte is never
an ATTRIBUTE low nibble. -/
theorem encForest_sim_aux : ∀ (m : Nat) (F : XForest), sizeOf F ≤ m →
    ∀ (collapse : Bool) (st : SOut) (bs : Str) (st' : SOut),
    encForest collapse F st = .ok (bs, st') →
    plainForest F = true →
    st.pool.length ≤ 65535 →
    st'.pool.length ≤ 65535 ∧
    iterForest collapse F ≤ bs.length ∧
    (bs = [] ∨ ∃ b r, bs = b :: r ∧ b % 16 ≠ 15) ∧
    ∀ (rest : List Nat) (acc : Str) (k : Nat),
      decodeLoop (iterForest collapse F + k) ⟨st.pool, bs ++ rest⟩ acc
        = decodeLoop k ⟨st'.pool, rest⟩ (acc ++ renderForest collapse F) := by
  intro m
  induction m with
  | zero =>
      intro F hF
      cases F <;> simp at hF
  | succ m ih =>
      intro F hF collapse st bs st' henc hplain hlen
      cases F with
      | nil =>
          cases henc
          refine ⟨hlen, by simp [iterForest], Or.inl rfl, ?_⟩
          intro rest acc k
          simp [iterForest, renderForest]
      | cons n t =>
          have hsz : 1 + sizeOf n + sizeOf t ≤ m + 1 := by
            simpa [XForest.cons.sizeOf_spec] using hF
          unfold encForest at henc
          cases h1 : encNode collapse n st with
          | error e => rw [h1] at henc; cases henc
          | ok p =>
              obtain ⟨b1, st1⟩ := p
              rw [h1] at henc
              dsimp only at henc
              cases h2 : encForest collapse t st1 with
              | error e => rw [h2] at henc; cases henc
              | ok q =>
                  obtain ⟨b2, st2⟩ := q
                  rw [h2] at henc
                  cases henc
                  simp only [plainForest, Bool.and_eq_true] at hplain
                  obtain ⟨hpn, hpt⟩ := hplain
                  have hnode : st1.pool.length ≤ 65535 ∧
                      iterNode collapse n ≤ b1.length ∧
                      (b1 = [] ∨ ∃ b r, b1 = b :: r ∧ b % 16 ≠ 15) ∧
                      ∀ (rest : List Nat) (acc : Str) (k : Nat),
                        decodeLoop (iterNode collapse n + k) ⟨st.pool, b1 ++ rest⟩ acc
                          = decodeLoop k ⟨st1.pool, rest⟩ (acc ++ renderNode collapse n) := by
                    clear h2 hpt
                    cases n with
                    | element name attrs children =>
                        simp only [encNode] at h1
                        cases hst : startTagS name st with
                        | error e => rw [hst] at h1; cases h1
                        | ok pA =>
                            obtain ⟨tb, stA⟩ := pA
                            rw [hst] at h1
                            dsimp only at h1
                            cases hat : encAttrs attrs stA with
                            | error e => rw [hat] at h1; cases h1
                            | ok pB =>
                                obtain ⟨ab, stB⟩ := pB
                                rw [hat] at h1
                                dsimp only at h1
                                cases hch : encForest collapse children stB with
                                | error e => rw [hch] at h1; cases h1
                                | ok pC =>
                                    obtain ⟨cb, stC⟩ := pC
                                    rw [hch] at h1
                                    dsimp only at h1
                                    cases het : endTagS name stC with
                                    | error e => rw [het] at h1; cases h1
                                    | ok pD =>
                                        obtain ⟨eb, stD⟩ := pD
                                        rw [het] at h1
                                        cases h1
                                        unfold startTagS at hst
                                        cases hw : writeInternedUTFW st.pool name with
                                        | error e => rw [hw] at hst; cases hst
                                        | ok pw =>
                                            obtain ⟨nb, poolA⟩ := pw
                                            rw [hw] at hst
                                            cases hst
                                            unfold endTagS at het
                                            cases hstk : stC.stack with
                                            | nil => rw [hstk] at het; cases het
                                            | cons top rest0 =>
                                                rw [hstk] at het
                                                dsimp only at het
                                                by_cases htop : top ≠ name
                                                · rw [if_pos htop] at het; cases het
                                                · rw [if_neg htop] at het
                                                  cases hw2 : writeInternedUTFW stC.pool name with
                                                  | error e => rw [hw2] at het; cases het
                                                  | ok pw2 =>
                                                      obtain ⟨nb2, poolD⟩ := pw2
                                                      rw [hw2] at het
                                                      cases het
                                                      simp only [plainNode, Bool.and_eq_true] at hpn
                                                      obtain ⟨hattrs, hpc⟩ := hpn
                                                      have hlA : poolA.length ≤ 65535 :=
                                                        (writeInternedUTFW_read hw hlen []).2
                                                      obtain ⟨hlB, hsB, hcntA, hloop0⟩ :=
                                                        encAttrs_sim attrs ⟨poolA, name :: st.stack⟩ ab stB hat hattrs hlA
                                                      have hloop : ∀ (w : Nat) (tail : List Nat) (acc : Str) (j : Nat),
                                                          w % 16 ≠ 15 →
                                                          attrLoop (attrs.length + (j + 1)) ⟨poolA, ab ++ w :: tail⟩ acc
                                                            = (acc ++ renderAttrs attrs ++ [62], ⟨stB.pool, w :: tail⟩) := hloop0
                                                      have hszc : sizeOf children ≤ m := by
                                                        simp only [XNode.element.sizeOf_spec] at hsz
                                                        omega
                                                      obtain ⟨hlC, hcC, hhC, hsimC⟩ :=
                                                        ih children hszc collapse stB cb stC hch hpc hlB
                                                      have hlD : poolD.length ≤ 65535 :=
                                                        (writeInternedUTFW_read hw2 hlC ([] : List Nat)).2
                                                      refine ⟨hlD, ?_, ?_, ?_⟩
                                                      · simp only [iterNode, List.length_append, List.length_cons]
                                                        omega
                                                      · exact Or.inr ⟨50, nb ++ ab ++ cb ++ 51 :: nb2, by simp, by decide⟩
                                                      · intro rest acc k
                                                        obtain ⟨w, tail, hwt, hwne⟩ :
                                                            ∃ w tail, cb ++ 51 :: (nb2 ++ rest) = w :: tail ∧ w % 16 ≠ 15 := by
                                                          rcases hhC with hnil | ⟨b, r, hbr, hne⟩
                                                          · exact ⟨51, nb2 ++ rest, by simp [hnil], by decide⟩
                                                          · exact ⟨b, r ++ 51 :: (nb2 ++ rest), by simp [hbr], hne⟩
                                                        have hstep : ∀ acc2, decodeStep ⟨st.pool, 50 :: (nb ++ (ab ++ (w :: tail)))⟩ acc2
                                                            = .cont ⟨stB.pool, w :: tail⟩
                                                                (acc2 ++ (60 :: (name ++ (renderAttrs attrs ++ [62])))) := by
                                                          intro acc2
                                                          have hw' := (writeInternedUTFW_read hw hlen (ab ++ (w :: tail))).1
                                                          simp only [decodeStep, readByteD, Nat.reduceMod, hw']
                                                          rw [show (⟨poolA, ab ++ (w :: tail)⟩ : DIn).input.length + 1
                                                              = attrs.length + ((ab ++ (w :: tail)).length - attrs.length + 1) from by
                                                            simp only [List.length_append, List.length_cons]
                                                            omega]
                                                          rw [hloop w tail [] _ hwne]
                                                          simp
                                                        have hstep2 : ∀ acc3, decodeStep ⟨stC.pool, 51 :: (nb2 ++ rest)⟩ acc3
                                                            = .cont ⟨poolD, rest⟩ (acc3 ++ [60, 47] ++ name ++ [62]) := by
                                                          intro acc3
                                                          have hrd := (writeInternedUTFW_read hw2 hlC rest).1
                                                          simp only [decodeStep, readByteD, Nat.reduceMod, hrd]
                                                        rw [show iterNode collapse (.element name attrs children) + k
                                                            = (iterForest collapse children + (1 + k)) + 1 from by
                                                          simp only [iterNode]; omega]
                                                        rw [show ((50 :: nb) ++ ab ++ cb ++ 51 :: nb2) ++ rest
                                                            = 50 :: (nb ++ (ab ++ (cb ++ 51 :: (nb2 ++ rest)))) from by
                                                          simp [List.append_assoc]]
                                                        rw [hwt, decodeLoop_succ, if_neg (by simp)]
                                                        simp only [hstep]
                                                        rw [← hwt, hsimC (51 :: (nb2 ++ rest)) _ (1 + k)]
                                                        rw [show 1 + k = k + 1 from by omega, decodeLoop_succ,
                                                          if_neg (by simp)]
                                                        simp only [hstep2]
                                                        simp [renderNode, List.append_assoc]
                    | pcdata s =>
                        simp only [encNode] at h1
                        by_cases hws : isWsOnly s
                        · rw [if_pos hws] at h1
                          by_cases hcol : collapse
                          · rw [if_pos hcol] at h1
                            injection h1 with hpair
                            injection hpair with hb hst
                            subst hb
                            rw [← hst]
                            refine ⟨hlen, by simp [iterNode, hws, hcol], Or.inl rfl, ?_⟩
                            intro rest acc k
                            simp [iterNode, renderNode, hws, hcol]
                          · rw [if_neg hcol] at h1
                            obtain ⟨ubs, hw, hbs, hstEq⟩ := writeTokenS_ok h1
                            rw [show (7 : Nat) + 32 = 39 from rfl] at hbs
                            subst hbs
                            rw [hstEq]
                            refine ⟨hlen, by simp [iterNode, hws, hcol], Or.inr ⟨39, ubs, rfl, by decide⟩, ?_⟩
                            have hstep : ∀ rest acc, decodeStep ⟨st.pool, 39 :: (ubs ++ rest)⟩ acc
                                = .cont ⟨st.pool, rest⟩ (acc ++ s) := by
                              intro rest acc
                              simp only [decodeStep, readByteD, Nat.reduceMod]
                              rw [show highType 39 = 32 from rfl]
                              simp only [if_pos, reduceIte, writeUTFW_read hw st.pool rest]
                            intro rest acc k
                            rw [show iterNode collapse (.pcdata s) + k = 1 + k from by
                              simp [iterNode, hws, hcol]]
                            rw [utf_token_sim hstep rest acc k]
                            simp [renderNode, hws, hcol]
                        · rw [if_neg hws] at h1
                          obtain ⟨ubs, hw, hbs, hstEq⟩ := writeTokenS_ok h1
                          rw [show (4 : Nat) + 32 = 36 from rfl] at hbs
                          subst hbs
                          rw [hstEq]
                          have hsne : s ≠ [] := by
                            intro hEq
                            subst hEq
                            simp [isWsOnly] at hws
                          refine ⟨hlen, by simp [iterNode, hws], Or.inr ⟨36, ubs, rfl, by decide⟩, ?_⟩
                          have hstep : ∀ rest acc, decodeStep ⟨st.pool, 36 :: (ubs ++ rest)⟩ acc
                              = .cont ⟨st.pool, rest⟩ (acc ++ encodeXmlEntities s) := by
                            intro rest acc
                            simp only [decodeStep, readByteD, Nat.reduceMod]
                            rw [show highType 36 = 32 from rfl]
                            simp only [if_pos, reduceIte, writeUTFW_read hw st.pool rest]
                            rw [if_neg hsne]
                          intro rest acc k
                          rw [show iterNode collapse (.pcdata s) + k = 1 + k from by
                            simp [iterNode, hws]]
                          rw [utf_token_sim hstep rest acc k]
                          simp [renderNode, hws]
                    | cdata s =>
                        simp only [encNode] at h1
                        obtain ⟨ubs, hw, hbs, hstEq⟩ := writeTokenS_ok h1
                        rw [show (5 : Nat) + 32 = 37 from rfl] at hbs
                        subst hbs
                        rw [hstEq]
                        refine ⟨hlen, by simp [iterNode], Or.inr ⟨37, ubs, rfl, by decide⟩, ?_⟩
                        have hstep : ∀ rest acc, decodeStep ⟨st.pool, 37 :: (ubs ++ rest)⟩ acc
                            = .cont ⟨st.pool, rest⟩
                                (acc ++ ([60, 33, 91, 67, 68, 65, 84, 65, 91] ++ (s ++ [93, 93, 62]))) := by
                          intro rest acc
                          simp only [decodeStep, readByteD, Nat.reduceMod]
                          rw [show highType 37 = 32 from rfl]
                          simp only [if_pos, reduceIte, writeUTFW_read hw st.pool rest]
                          simp [List.append_assoc]
                        intro rest acc k
                        rw [show iterNode collapse (.cdata s) + k = 1 + k from by simp [iterNode]]
                        rw [utf_token_sim hstep rest acc k]
                        simp [renderNode, List.append_assoc]
                    | comment s =>
                        simp only [encNode] at h1
                        obtain ⟨ubs, hw, hbs, hstEq⟩ := writeTokenS_ok h1
                        rw [show (9 : Nat) + 32 = 41 from rfl] at hbs
                        subst hbs
                        rw [hstEq]
                        refine ⟨hlen, by simp [iterNode], Or.inr ⟨41, ubs, rfl, by decide⟩, ?_⟩
                        have hstep : ∀ rest acc, decodeStep ⟨st.pool, 41 :: (ubs ++ rest)⟩ acc
                            = .cont ⟨st.pool, rest⟩
                                (acc ++ ([60, 33, 45, 45] ++ (s ++ [45, 45, 62]))) := by
                          intro rest acc
                          simp only [decodeStep, readByteD, Nat.reduceMod]
                          rw [show highType 41 = 32 from rfl]
                          simp only [if_pos, reduceIte, writeUTFW_read hw st.pool rest]
                          simp [List.append_assoc]
                        intro rest acc k
                        rw [show iterNode collapse (.comment s) + k = 1 + k from by simp [iterNode]]
                        rw [utf_token_sim hstep rest acc k]
                        simp [renderNode, List.append_assoc]
                    | pi target data =>
                        simp only [encNode] at h1
                        obtain ⟨ubs, hw, hbs, hstEq⟩ := writeTokenS_ok h1
                        rw [show (8 : Nat) + 32 = 40 from rfl] at hbs
                        subst hbs
                        rw [hstEq]
                        refine ⟨hlen, by simp [iterNode], Or.inr ⟨40, ubs, rfl, by decide⟩, ?_⟩
                        have hstep : ∀ rest acc, decodeStep ⟨st.pool, 40 :: (ubs ++ rest)⟩ acc
                            = .cont ⟨st.pool, rest⟩
                                (acc ++ ([60, 63] ++
                                  ((if data = [] then target else target ++ 32 :: data) ++ [63, 62]))) := by
                          intro rest acc
                          simp only [decodeStep, readByteD, Nat.reduceMod]
                          rw [show highType 40 = 32 from rfl]
                          simp only [if_pos, reduceIte, writeUTFW_read hw st.pool rest]
                          simp [List.append_assoc]
                        intro rest acc k
                        rw [show iterNode collapse (.pi target data) + k = 1 + k from by simp [iterNode]]
                        rw [utf_token_sim hstep rest acc k]
                        simp [renderNode, List.append_assoc]
                    | doctype s =>
                        simp only [encNode] at h1
                        obtain ⟨ubs, hw, hbs, hstEq⟩ := writeTokenS_ok h1
                        rw [show (10 : Nat) + 32 = 42 from rfl] at hbs
                        subst hbs
                        rw [hstEq]
                        refine ⟨hlen, by simp [iterNode], Or.inr ⟨42, ubs, rfl, by decide⟩, ?_⟩
                        have hstep : ∀ rest acc, decodeStep ⟨st.pool, 42 :: (ubs ++ rest)⟩ acc
                            = .cont ⟨st.pool, rest⟩
                                (acc ++ ([60, 33, 68, 79, 67, 84, 89, 80, 69, 32] ++ (s ++ [62]))) := by
                          intro rest acc
                          simp only [decodeStep, readByteD, Nat.reduceMod]
                          rw [show highType 42 = 32 from rfl]
                          simp only [if_pos, reduceIte, writeUTFW_read hw st.pool rest]
                          simp [List.append_assoc]
                        intro rest acc k
                        rw [show iterNode collapse (.doctype s) + k = 1 + k from by simp [iterNode]]
                        rw [utf_token_sim hstep rest acc k]
                        simp [renderNode, List.append_assoc]
                    | decl =>
                        injection h1 with hpair
                        injection hpair with hb hst
                        subst hb
                        rw [← hst]
                        refine ⟨hlen, by simp [iterNode], Or.inl rfl, ?_⟩
                        intro rest acc k
                        simp [iterNode, renderNode]
                  obtain ⟨hl1, hc1, hh1, hsim1⟩ := hnode
                  have hszt : sizeOf t ≤ m := by omega
                  obtain ⟨hl2, hc2, hh2, hsim2⟩ := ih t hszt collapse st1 b2 _ h2 hpt hl1
                  refine ⟨hl2, ?_, ?_, ?_⟩
                  · simp only [iterForest, List.length_append]
                    omega
                  · rcases hh1 with hnil | ⟨b, r, hbr, hne⟩
                    · rw [hnil, List.nil_append]
                      exact hh2
                    · exact Or.inr ⟨b, r ++ b2, by simp [hbr], hne⟩
                  · intro rest acc k
                    rw [show iterForest collapse (.cons n t) + k
                        = iterNode collapse n + (iterForest collapse t + k) from by
                      simp only [iterForest]; omega]
                    rw [List.append_assoc, hsim1 (b2 ++ rest) acc (iterForest collapse t + k),
                      hsim2 rest _ k]
                    simp [renderForest, List.append_assoc]

end Abx

namespace Abx

/-- Amended claim C1: for every XML document whose attribute values all stay
in the plain-string arms of the inference ladder, and whose serialization
succeeds (no UTF payload over 65 535 bytes, no intern-pool overflow — the
serializer throws otherwise, see the counterexample), decoding the produced
ABX yields exactly the canonical XML text of the document: equal modulo
whitespace when `collapse_whitespace` is on (whitespace-only text nodes are
dropped), exactly the document's text when it is off. -/
theorem c1_round_trip (collapse : Bool) (doc : XForest) (bs : List Nat)
    (hplain : plainForest doc = true)
    (henc : encodeDoc collapse doc = .ok bs) :
    deserialize bs = .ok (renderForest collapse doc) := by
  simp only [encodeDoc, startDocumentS, endDocumentS, protocolMagic] at henc
  cases hf : encForest collapse doc ⟨[], []⟩ with
  | error e => rw [hf] at henc; cases henc
  | ok p =>
      obtain ⟨body, stF⟩ := p
      rw [hf] at henc
      cases henc
      obtain ⟨hlF, hcF, hhF, hsimF⟩ :=
        encForest_sim_aux (sizeOf doc) doc le_rfl collapse ⟨[], []⟩ body stF hf hplain
          (by simp)
      rw [show ([65, 66, 88, 0] : List Nat) ++ [16] ++ body ++ [17]
          = 65 :: 66 :: 88 :: 0 :: (16 :: (body ++ [17])) from by simp]
      simp only [deserialize, and_self, if_true, reduceIte]
      rw [show (16 :: (body ++ [17])).length + 1 = (body.length + 2) + 1 from by simp]
      rw [decodeLoop_succ, if_neg (by simp)]
      have hstep0 : decodeStep ⟨[], 16 :: (body ++ [17])⟩ [] = .cont ⟨[], body ++ [17]⟩ [] := by
        simp only [decodeStep, readByteD, Nat.reduceMod]
      simp only [hstep0]
      rw [show body.length + 2
          = iterForest collapse doc + (body.length + 2 - iterForest collapse doc) from by
        omega]
      rw [hsimF [17] [] _]
      rw [show body.length + 2 - iterForest collapse doc
          = (body.length + 1 - iterForest collapse doc) + 1 from by omega]
      rw [decodeLoop_succ, if_neg (by simp)]
      have hstep1 : ∀ acc : Str, decodeStep ⟨stF.pool, [17]⟩ acc = .done acc := by
        intro acc
        simp only [decodeStep, readByteD, Nat.reduceMod]
      simp only [hstep1]
      simp

end Abx

namespace Abx

/-- A document whose only attribute value is a plain string of 65 536 bytes
(`"a"` followed by 65 535 spaces — no inference arm other than plain string
can touch it). -/
def c1BadDoc : XForest :=
  .cons (.element [114] [([97], 97 :: List.replicate 65535 32)] .nil) .nil

/-- The bad value has 65 536 bytes. -/
theorem c1vLen : (97 :: List.replicate 65535 32 : Str).length = 65536 := by
  rw [List.length_cons, List.length_replicate]

/-- The bad value is not a boolean literal. -/
theorem c1vBool : isBoolean (97 :: List.replicate 65535 32) = false := by
  simp only [isBoolean, Bool.or_eq_false_iff, decide_eq_false_iff_not]
  constructor <;> (intro h; injection h with h1 h2; exact absurd h1 (by norm_num))

/-- The bad value is not numeric: its first byte is not a digit. -/
theorem c1vNum : isNumeric (97 :: List.replicate 65535 32) = false := by
  simp only [isNumeric]
  rw [if_neg (by norm_num : ¬ (97 : Nat) = 45), List.all_cons,
    show isDigitB 97 = false from rfl, Bool.false_and]

/-- The bad value is not hex: its first byte is not the digit zero. -/
theorem c1vHex : isHexNumber (97 :: List.replicate 65535 32) = false := by
  rw [show (97 :: List.replicate 65535 32 : Str) = 97 :: 32 :: List.replicate 65534 32 from rfl]
  simp only [isHexNumber]
  rw [show decide ((97 : Nat) = 48) = false from rfl]
  simp only [Bool.false_and, Bool.and_false]

/-- The bad value is not float-shaped: its first byte ends the scan. -/
theorem c1vFloat : isFloatB (97 :: List.replicate 65535 32) = false := by
  simp only [isFloatB]
  rw [if_neg (by norm_num : ¬ (97 : Nat) = 45)]
  rw [floatScan]
  rw [if_neg (by norm_num : ¬ (97 : Nat) = 46),
    if_neg (by decide : ¬ isDigitB 97 = true)]

/-- Every inference arm rejects the bad value, leaving a plain string. -/
theorem c1vInfer : inferAttr (97 :: List.replicate 65535 32) = .astr := by
  have hd50 : decide ((97 :: List.replicate 65535 32 : Str).length < 50) = false := by
    rw [c1vLen]; rfl
  simp only [inferAttr, c1vBool, c1vNum, c1vHex, c1vFloat, hd50,
    Bool.false_and, Bool.false_eq_true, if_false]

/-- `writeUTF` rejects the bad value: 65 536 exceeds `MAX_UNSIGNED_SHORT`. -/
theorem c1vUtf : writeUTFW (97 :: List.replicate 65535 32) = .error .stringTooLong := by
  unfold writeUTFW
  rw [if_pos (by rw [c1vLen]; norm_num [maxUnsignedShort])]

/-- A single-attribute document whose value stays in the plain-string arm is
plain, independently of the value. -/
theorem c1Plain (v : Str) (hi : inferAttr v = .astr) :
    plainForest (.cons (.element [114] [([97], v)] .nil) .nil) = true := by
  simp only [plainForest, plainNode, List.all_cons, List.all_nil, Bool.and_true, hi]
  decide

/-- If the plain-string arm is selected and `writeUTF` rejects the value,
the whole conversion fails with `StringTooLong`. -/
theorem c1Enc (v : Str) (hi : inferAttr v = .astr)
    (hu : writeUTFW v = .error .stringTooLong) :
    encodeDoc false (.cons (.element [114] [([97], v)] .nil) .nil)
      = .error .stringTooLong := by
  have hattr : encAttr [97] v ⟨[[114]], [[114]]⟩ = .error .stringTooLong := by
    simp only [encAttr, hi, attributeS,
      show writeInternedUTFW [[114]] [97] = .ok ([255, 255, 0, 1, 97], [[114], [97]]) from rfl,
      hu]
  have hattrs : encAttrs [([97], v)] ⟨[[114]], [[114]]⟩ = .error .stringTooLong := by
    simp only [encAttrs, hattr]
  have hnode : encNode false (.element [114] [([97], v)] .nil) ⟨[], []⟩
      = .error .stringTooLong := by
    simp only [encNode,
      show startTagS [114] (⟨[], []⟩ : SOut)
        = .ok ([50, 255, 255, 0, 1, 114], ⟨[[114]], [[114]]⟩) from rfl,
      hattrs]
  have hforest : encForest false (.cons (.element [114] [([97], v)] .nil) .nil) ⟨[], []⟩
      = .error .stringTooLong := by
    simp only [encForest, hnode]
  simp only [encodeDoc, startDocumentS, hforest]

/-- Counterexample to C1 as stated: `c1BadDoc` satisfies the claim's
precondition (its single attribute value is a plain string), yet converting
it to ABX does not yield a stream at all — `writeUTF` throws `StringTooLong`
— so decode(encode(D)) produces no document.  The claim holds only under the
added proviso that serialization succeeds. -/
theorem c1_counterexample :
    plainForest c1BadDoc = true ∧
    encodeDoc false c1BadDoc = .error .stringTooLong :=
  ⟨c1Plain _ c1vInfer, c1Enc _ c1vInfer c1vUtf⟩

/-- Witness for C1 at `<r a="v">hi</r>`: encoding succeeds and decoding the
bytes returns the canonical text `<r a="v">hi</r>`. -/
theorem c1_round_trip_witness :
    plainForest (.cons (.element [114] [([97], [118])]
        (.cons (.pcdata [104, 105]) .nil)) .nil) = true ∧
    encodeDoc false (.cons (.element [114] [([97], [118])]
        (.cons (.pcdata [104, 105]) .nil)) .nil)
      = .ok [65, 66, 88, 0, 16, 50, 255, 255, 0, 1, 114, 63, 255, 255, 0, 1, 97,
          255, 255, 0, 1, 118, 36, 0, 2, 104, 105, 51, 0, 0, 17] ∧
    deserialize [65, 66, 88, 0, 16, 50, 255, 255, 0, 1, 114, 63, 255, 255, 0, 1, 97,
          255, 255, 0, 1, 118, 36, 0, 2, 104, 105, 51, 0, 0, 17]
      = .ok (renderForest false (.cons (.element [114] [([97], [118])]
          (.cons (.pcdata [104, 105]) .nil)) .nil)) :=
  ⟨by decide, by decide,
   c1_round_trip false
     (.cons (.element [114] [([97], [118])] (.cons (.pcdata [104, 105]) .nil)) .nil)
     _ (by decide) (by decide)⟩

end Abx
